import Mathlib

/-!
# Alpha-blending blitters (`SDL_blit_A_sse4_1.c`, `SDL_blit_A_avx2.c`)

A shallow embedding of the SSE4.1 and AVX2 alpha blitters.

* A vector register (`__m128i`, `__m256i`) and a `Uint32` are natural numbers read
  little-endian; lanes are base-`B` digits (`B = 2^8, 2^16, 2^32, 2^64`).
* Memory is a map from byte offsets to bytes.  The source surface, the destination
  surface and the scratch buffer returned by `SDL_malloc` are three separate blocks,
  a pointer is an offset into its block.
* `int` loop counters and dimensions are natural numbers (the blitters are called with
  non-negative sizes that fit the address space); the one `int` expression modelled with
  its 32-bit wrap is the size passed to `SDL_malloc` (`scratchSize`).
-/

namespace SDLBlit

/-! ## Lanes of a register -/

/-- Lane `i` of `v` when `v` is cut into lanes holding values below `B`. -/
def digit (B v i : Nat) : Nat := v / B ^ i % B

/-- The register whose lane `i` is `f i` (reduced below `B`) for `i < n`, zero above. -/
def pack (B : Nat) (f : Nat → Nat) : Nat → Nat
  | 0 => 0
  | n + 1 => pack B f n + f n % B * B ^ n

/-- Byte `i` of a register. -/
abbrev byteOf (v i : Nat) : Nat := digit 256 v i

/-- 16-bit lane `i` of a register. -/
abbrev wordOf (v i : Nat) : Nat := digit 65536 v i

/-- 32-bit lane (pixel) `i` of a register. -/
abbrev pixelOf (v i : Nat) : Nat := digit (2 ^ 32) v i

/-- 64-bit lane `i` of a register. -/
abbrev qwordOf (v i : Nat) : Nat := digit (2 ^ 64) v i

/-! ## Intrinsics (Intel Intrinsics Guide semantics) -/

/-- `_mm_set_epi8(e15, ..., e0)`: the arguments are listed from byte 15 down to byte 0,
each a signed `char`. -/
def _mm_set_epi8 (es : List Int) : Nat :=
  pack 256 (fun i => ((es.reverse.getD i 0) % 256).toNat) 16

/-- `_mm256_set_epi8(e31, ..., e0)`. -/
def _mm256_set_epi8 (es : List Int) : Nat :=
  pack 256 (fun i => ((es.reverse.getD i 0) % 256).toNat) 32

/-- `_mm_cvtepu8_epi16`: zero-extend the low 8 bytes to eight 16-bit lanes. -/
def _mm_cvtepu8_epi16 (a : Nat) : Nat := pack 65536 (fun j => byteOf a j) 8

/-- `_mm256_cvtepu8_epi16`: zero-extend 16 bytes to sixteen 16-bit lanes. -/
def _mm256_cvtepu8_epi16 (a : Nat) : Nat := pack 65536 (fun j => byteOf a j) 16

/-- `_mm_shuffle_epi8`: byte `i` of the result is zero when bit 7 of byte `i` of `b`
is set, else the byte of `a` indexed by the low four bits of byte `i` of `b`. -/
def _mm_shuffle_epi8 (a b : Nat) : Nat :=
  pack 256 (fun i => if 128 ≤ byteOf b i then 0 else byteOf a (byteOf b i % 16)) 16

/-- `_mm256_shuffle_epi8`: as `_mm_shuffle_epi8`, separately in each 128-bit half. -/
def _mm256_shuffle_epi8 (a b : Nat) : Nat :=
  pack 256 (fun i => if 128 ≤ byteOf b i then 0
    else byteOf a (i / 16 * 16 + byteOf b i % 16)) 32

/-- `_mm_sub_epi16`: lane-wise 16-bit subtraction with wrap-around. -/
def _mm_sub_epi16 (a b : Nat) : Nat :=
  pack 65536 (fun j => (wordOf a j + 65536 - wordOf b j) % 65536) 8

/-- `_mm256_sub_epi16`. -/
def _mm256_sub_epi16 (a b : Nat) : Nat :=
  pack 65536 (fun j => (wordOf a j + 65536 - wordOf b j) % 65536) 16

/-- `_mm_mullo_epi16`: low 16 bits of the lane-wise product. -/
def _mm_mullo_epi16 (a b : Nat) : Nat :=
  pack 65536 (fun j => wordOf a j * wordOf b j % 65536) 8

/-- `_mm256_mullo_epi16`. -/
def _mm256_mullo_epi16 (a b : Nat) : Nat :=
  pack 65536 (fun j => wordOf a j * wordOf b j % 65536) 16

/-- `_mm_add_epi8`: byte-wise addition with wrap-around. -/
def _mm_add_epi8 (a b : Nat) : Nat :=
  pack 256 (fun i => (byteOf a i + byteOf b i) % 256) 16

/-- `_MM_SHUFFLE(z, y, x, w)`. -/
def _MM_SHUFFLE (z y x w : Nat) : Nat := (z <<< 6) ||| (y <<< 4) ||| (x <<< 2) ||| w

/-- `_mm256_permute4x64_epi64`: 64-bit lane `j` of the result is the lane of `a`
selected by bits `2j+1 : 2j` of `imm8`. -/
def _mm256_permute4x64_epi64 (a imm8 : Nat) : Nat :=
  pack (2 ^ 64) (fun j => qwordOf a (imm8 / 4 ^ j % 4)) 4

/-- `_mm256_castsi256_si128`: the low 128 bits. -/
def _mm256_castsi256_si128 (a : Nat) : Nat := a % 2 ^ 128

/-! ## Memory -/

/-- A block of memory: byte offset to byte. -/
abbrev Mem := Nat → Nat

/-- Little-endian load of `n` bytes at offset `p`, zero-extended; each memory cell is read
as a byte (modulo 256). -/
def loadBytes (m : Mem) (p n : Nat) : Nat := pack 256 (fun k => m (p + k)) n

/-- Store of the low `n` bytes of `v` at offset `p`. -/
def storeBytes (m : Mem) (p n v : Nat) : Mem :=
  fun a => if p ≤ a ∧ a < p + n then byteOf v (a - p) else m a

/-- `_mm_loadu_si128`. -/
def _mm_loadu_si128 (m : Mem) (p : Nat) : Nat := loadBytes m p 16

/-- `_mm_loadu_si64`: 8 bytes, upper half of the register zero. -/
def _mm_loadu_si64 (m : Mem) (p : Nat) : Nat := loadBytes m p 8

/-- `_mm_loadu_si32`: 4 bytes, the rest of the register zero. -/
def _mm_loadu_si32 (m : Mem) (p : Nat) : Nat := loadBytes m p 4

/-- `_mm_storeu_si128`. -/
def _mm_storeu_si128 (m : Mem) (p v : Nat) : Mem := storeBytes m p 16 v

/-- `_mm_storeu_si64`: the low 8 bytes. -/
def _mm_storeu_si64 (m : Mem) (p v : Nat) : Mem := storeBytes m p 8 v

/-- `_mm_storeu_si32`: the low 4 bytes. -/
def _mm_storeu_si32 (m : Mem) (p v : Nat) : Mem := storeBytes m p 4 v

/-! ## `SDL_blit_A_sse4_1.c` -/

/-- Modelled from the spec: `SDL_PixelFormat` is declared in the SDL headers, outside
the sources at hand; the blitters read only its four channel bit-shift offsets. -/
structure SDL_PixelFormat where
  Rshift : Nat
  Gshift : Nat
  Bshift : Nat
  Ashift : Nat
deriving DecidableEq

/-- Modelled from the spec: `SDL_BlitInfo` is declared in `SDL_blit.h`, outside the
sources at hand; the fields the blitters read are the two row pointers (offsets into
the source and the destination block), the shared width and height, the two row skips
and the source format. -/
structure SDL_BlitInfo where
  src : Nat
  src_skip : Nat
  dst : Nat
  dst_w : Nat
  dst_h : Nat
  dst_skip : Nat
  src_fmt : SDL_PixelFormat

/-- `MixRGBA_SSE4_1`. -/
def MixRGBA_SSE4_1 (src dst : Nat) : Nat :=
  let src_color := _mm_cvtepu8_epi16 src
  let dst_color := _mm_cvtepu8_epi16 dst
  let SHUFFLE_ALPHA := _mm_set_epi8
    [-1, 7, -1, 7, -1, 7, -1, 7,
     -1, 3, -1, 3, -1, 3, -1, 3]
  let alpha := _mm_shuffle_epi8 src SHUFFLE_ALPHA
  let sub := _mm_sub_epi16 src_color dst_color
  let mul := _mm_mullo_epi16 sub alpha
  let SHUFFLE_REDUCE := _mm_set_epi8
    [-1, -1, -1, -1, -1, -1, -1, -1,
     15, 13, 11, 9, 7, 5, 3, 1]
  let reduced := _mm_shuffle_epi8 mul SHUFFLE_REDUCE
  _mm_add_epi8 reduced dst

/-- `convertPixelFormat`: `color` is a `Uint32`, the four channels are `Uint8`. -/
def convertPixelFormat (color : Nat) (srcFormat : SDL_PixelFormat) : Nat :=
  let a := (color >>> srcFormat.Ashift) &&& 0xFF
  let r := (color >>> srcFormat.Rshift) &&& 0xFF
  let g := (color >>> srcFormat.Gshift) &&& 0xFF
  let b := (color >>> srcFormat.Bshift) &&& 0xFF
  ((a <<< 24) ||| (r <<< 16) ||| (g <<< 8) ||| b) % 2 ^ 32

/-- `convertPixelFormatsx4`. -/
def convertPixelFormatsx4 (colors : Nat) (srcFormat : SDL_PixelFormat) : Nat :=
  let srcShuffleMask := _mm_set_epi8
    [srcFormat.Ashift / 8 + 12, srcFormat.Rshift / 8 + 12, srcFormat.Gshift / 8 + 12, srcFormat.Bshift / 8 + 12,
     srcFormat.Ashift / 8 + 8, srcFormat.Rshift / 8 + 8, srcFormat.Gshift / 8 + 8, srcFormat.Bshift / 8 + 8,
     srcFormat.Ashift / 8 + 4, srcFormat.Rshift / 8 + 4, srcFormat.Gshift / 8 + 4, srcFormat.Bshift / 8 + 4,
     srcFormat.Ashift / 8, srcFormat.Rshift / 8, srcFormat.Gshift / 8, srcFormat.Bshift / 8]
  _mm_shuffle_epi8 colors srcShuffleMask

/-- Run `body 0`, ..., `body (n - 1)` in this order: `for (int i = 0; i < n; i += 1)`. -/
def forLoop {σ : Type} (body : Nat → σ → σ) : Nat → σ → σ
  | 0, s => s
  | n + 1, s => body n (forLoop body n s)

/-- Run `body` once per remaining row: `while (height--)`. -/
def whileHeight {σ : Type} (body : σ → σ) : Nat → σ → σ
  | 0, s => s
  | h + 1, s => whileHeight body h (body s)

/-- The state of a blit in progress: the two row pointers, the scratch buffer and the
destination block. -/
structure BlitState where
  src : Nat
  dst : Nat
  buffer : Mem
  dmem : Mem

/-- The remainder step of `BlitNtoNPixelAlpha_SSE4_1` (`if (width % 4 != 0) ...`).
`step2` carries `remaining_pixels`, `offset` and the destination block out of the 2-pixel
step.  In the 1-pixel step `_mm_loadu_si32(&pixel)` (or `_mm_set_epi32(0, 0, 0, pixel)` on
old GCC) is the 32-bit `pixel` in an otherwise zero register. -/
def remainder_SSE4_1 (width : Nat) (srcfmt : SDL_PixelFormat) (smem : Mem)
    (src dst : Nat) (dmem : Mem) : Mem :=
  if width % 4 ≠ 0 then
    let remaining_pixels := width % 4
    let offset := width - remaining_pixels
    let step2 : Nat × Nat × Mem :=
      if remaining_pixels ≥ 2 then
        let src_ptr := src + offset * 4
        let dst_ptr := dst + offset * 4
        let c_src := _mm_loadu_si64 smem src_ptr
        let c_src := convertPixelFormatsx4 c_src srcfmt
        let c_dst := _mm_loadu_si64 dmem dst_ptr
        let c_mix := MixRGBA_SSE4_1 c_src c_dst
        (remaining_pixels - 2, offset + 2, _mm_storeu_si64 dmem dst_ptr c_mix)
      else (remaining_pixels, offset, dmem)
    let remaining_pixels := step2.1
    let offset := step2.2.1
    let dmem := step2.2.2
    if remaining_pixels = 1 then
      let src_ptr := src + offset * 4
      let dst_ptr := dst + offset * 4
      let pixel := convertPixelFormat (loadBytes smem src_ptr 4) srcfmt
      let c_src := pixel % 2 ^ 32
      let c_dst := _mm_loadu_si32 dmem dst_ptr
      let mixed_pixel := MixRGBA_SSE4_1 c_src c_dst
      _mm_storeu_si32 dmem dst_ptr mixed_pixel
    else dmem
  else dmem

/-- One pass of the `while (height--)` body of `BlitNtoNPixelAlpha_SSE4_1`. -/
def row_SSE4_1 (width chunks srcskip dstskip : Nat) (srcfmt : SDL_PixelFormat)
    (smem : Mem) (s : BlitState) : BlitState :=
  let src := s.src
  let dst := s.dst
  let buffer := forLoop (fun i buffer =>
    let colors := _mm_loadu_si128 smem (src + i * 16)
    _mm_storeu_si128 buffer (i * 16) (convertPixelFormatsx4 colors srcfmt)) chunks s.buffer
  let dmem := forLoop (fun i dmem =>
    let c_src := _mm_loadu_si64 buffer (i * 8)
    let c_dst := _mm_loadu_si64 dmem (dst + i * 8)
    let c_mix := MixRGBA_SSE4_1 c_src c_dst
    _mm_storeu_si64 dmem (dst + i * 8) c_mix) (chunks * 2) s.dmem
  let dmem := remainder_SSE4_1 width srcfmt smem src dst dmem
  let src := src + 4 * width
  let dst := dst + 4 * width
  let src := src + srcskip
  let dst := dst + dstskip
  { src := src, dst := dst, buffer := buffer, dmem := dmem }

/-- `BlitNtoNPixelAlpha_SSE4_1`: `smem` is the source block, `dmem` the destination
block and `buffer` the (arbitrary) initial content of the block `SDL_malloc` returns;
the result is the destination block on return. -/
def BlitNtoNPixelAlpha_SSE4_1 (info : SDL_BlitInfo) (smem dmem buffer : Mem) : Mem :=
  let width := info.dst_w
  let height := info.dst_h
  let src := info.src
  let srcskip := info.src_skip
  let dst := info.dst
  let dstskip := info.dst_skip
  let srcfmt := info.src_fmt
  let chunks := width / 4
  (whileHeight (row_SSE4_1 width chunks srcskip dstskip srcfmt smem) height
    { src := src, dst := dst, buffer := buffer, dmem := dmem }).dmem

/-! ## `SDL_blit_A_avx2.c` -/

/-- `MixRGBA_AVX2`. -/
def MixRGBA_AVX2 (src dst : Nat) : Nat :=
  let src_color := _mm256_cvtepu8_epi16 src
  let dst_color := _mm256_cvtepu8_epi16 dst
  let SHUFFLE_ALPHA := _mm256_set_epi8
    [-1, 30, -1, 30, -1, 30, -1, 30,
     -1, 22, -1, 22, -1, 22, -1, 22,
     -1, 14, -1, 14, -1, 14, -1, 14,
     -1, 6, -1, 6, -1, 6, -1, 6]
  let alpha := _mm256_shuffle_epi8 src_color SHUFFLE_ALPHA
  let sub := _mm256_sub_epi16 src_color dst_color
  let mul := _mm256_mullo_epi16 sub alpha
  let SHUFFLE_REDUCE := _mm256_set_epi8
    [-1, -1, -1, -1, -1, -1, -1, -1,
     31, 29, 27, 25, 23, 21, 19, 17,
     -1, -1, -1, -1, -1, -1, -1, -1,
     15, 13, 11, 9, 7, 5, 3, 1]
  let reduced := _mm256_shuffle_epi8 mul SHUFFLE_REDUCE
  let packed := _mm256_permute4x64_epi64 reduced (_MM_SHUFFLE 3 1 2 0)
  let mix := _mm256_castsi256_si128 packed
  _mm_add_epi8 mix dst

/-- The remainder step of `BlitNtoNPixelAlpha_AVX2` (`if (width % 4 != 0) ...`), which
repeats the text of the SSE4.1 blitter and calls `MixRGBA_SSE4_1`. -/
def remainder_AVX2 (width : Nat) (srcfmt : SDL_PixelFormat) (smem : Mem)
    (src dst : Nat) (dmem : Mem) : Mem :=
  if width % 4 ≠ 0 then
    let remaining_pixels := width % 4
    let offset := width - remaining_pixels
    let step2 : Nat × Nat × Mem :=
      if remaining_pixels ≥ 2 then
        let src_ptr := src + offset * 4
        let dst_ptr := dst + offset * 4
        let c_src := _mm_loadu_si64 smem src_ptr
        let c_src := convertPixelFormatsx4 c_src srcfmt
        let c_dst := _mm_loadu_si64 dmem dst_ptr
        let c_mix := MixRGBA_SSE4_1 c_src c_dst
        (remaining_pixels - 2, offset + 2, _mm_storeu_si64 dmem dst_ptr c_mix)
      else (remaining_pixels, offset, dmem)
    let remaining_pixels := step2.1
    let offset := step2.2.1
    let dmem := step2.2.2
    if remaining_pixels = 1 then
      let src_ptr := src + offset * 4
      let dst_ptr := dst + offset * 4
      let pixel := convertPixelFormat (loadBytes smem src_ptr 4) srcfmt
      let c_src := pixel % 2 ^ 32
      let c_dst := _mm_loadu_si32 dmem dst_ptr
      let mixed_pixel := MixRGBA_SSE4_1 c_src c_dst
      _mm_storeu_si32 dmem dst_ptr mixed_pixel
    else dmem
  else dmem

/-- One pass of the `while (height--)` body of `BlitNtoNPixelAlpha_AVX2`; the AVX2
blitter has no scratch buffer, the `buffer` field is carried along untouched. -/
def row_AVX2 (width chunks srcskip dstskip : Nat) (srcfmt : SDL_PixelFormat)
    (smem : Mem) (s : BlitState) : BlitState :=
  let src := s.src
  let dst := s.dst
  let dmem := forLoop (fun i dmem =>
    let c_src := convertPixelFormatsx4 (_mm_loadu_si128 smem (src + i * 16)) srcfmt
    let c_dst := _mm_loadu_si128 dmem (dst + i * 16)
    let c_mix := MixRGBA_AVX2 c_src c_dst
    _mm_storeu_si128 dmem (dst + i * 16) c_mix) chunks s.dmem
  let dmem := remainder_AVX2 width srcfmt smem src dst dmem
  let src := src + 4 * width
  let dst := dst + 4 * width
  let src := src + srcskip
  let dst := dst + dstskip
  { src := src, dst := dst, buffer := s.buffer, dmem := dmem }

/-- `BlitNtoNPixelAlpha_AVX2`: `smem` is the source block, `dmem` the destination
block; the result is the destination block on return. -/
def BlitNtoNPixelAlpha_AVX2 (info : SDL_BlitInfo) (smem dmem : Mem) : Mem :=
  let width := info.dst_w
  let height := info.dst_h
  let src := info.src
  let srcskip := info.src_skip
  let dst := info.dst
  let dstskip := info.dst_skip
  let srcfmt := info.src_fmt
  let chunks := width / 4
  (whileHeight (row_AVX2 width chunks srcskip dstskip srcfmt smem) height
    { src := src, dst := dst, buffer := fun _ => 0, dmem := dmem }).dmem


/-! ## The scratch buffer of `BlitNtoNPixelAlpha_SSE4_1`, with checked accesses -/

/-- The value an `int` expression takes when its mathematical value is `z`: the 32-bit
two's complement wrap, which is what the compiled product yields when it overflows. -/
def wrapInt32 (z : Int) : Int := (z + 2 ^ 31) % 2 ^ 32 - 2 ^ 31

/-- Conversion of an `int` to a 64-bit `size_t`. -/
def toSizeT (z : Int) : Nat := (z % 2 ^ 64).toNat

/-- The size passed to `SDL_malloc`, `chunks * 16 * sizeof(Uint8)`: the `int` product
`chunks * 16`, converted to `size_t` and multiplied by `sizeof(Uint8) = 1`. -/
def scratchSize (chunks : Nat) : Nat :=
  toSizeT (wrapInt32 ((chunks : Int) * 16)) * 1 % 2 ^ 64

/-- The scratch block: `size` bytes were allocated; a cell holds `none` until a byte is
stored in it. -/
structure Scratch where
  size : Nat
  cells : Nat → Option Nat

/-- `SDL_malloc`: a block of `size` bytes, none of them written. -/
def SDL_malloc (size : Nat) : Scratch := { size := size, cells := fun _ => none }

/-- The same block with every byte marked as not written. -/
def Scratch.forget (b : Scratch) : Scratch := { size := b.size, cells := fun _ => none }

/-- A store of the low `n` bytes of `v` at offset `p` of the scratch block; it fails
unless all `n` bytes lie inside the allocated size. -/
def Scratch.store (b : Scratch) (p n v : Nat) : Option Scratch :=
  if p + n ≤ b.size then
    some { size := b.size,
           cells := fun a => if p ≤ a ∧ a < p + n then some (byteOf v (a - p)) else b.cells a }
  else none

/-- A little-endian load of `n` bytes at offset `p` of the scratch block; it fails unless
all `n` bytes lie inside the allocated size and each has been written. -/
def Scratch.load (b : Scratch) (p n : Nat) : Option Nat :=
  if p + n ≤ b.size ∧ ∀ k, k < n → (b.cells (p + k)).isSome = true then
    some (pack 256 (fun k => (b.cells (p + k)).getD 0) n)
  else none

/-- The state of a blit in progress, with the checked scratch block. -/
structure CheckedState where
  src : Nat
  dst : Nat
  buffer : Scratch
  dmem : Mem

/-- The `while (height--)` body of `BlitNtoNPixelAlpha_SSE4_1` as in `row_SSE4_1`, its
accesses to the scratch buffer made through the checked `Scratch.store` (the
`_mm_storeu_si128` at `buffer + i * 16`) and `Scratch.load` (the `_mm_loadu_si64` at
`buffer + (i * 8)`).  The row starts with every scratch byte marked as not written, so a
load succeeds only on bytes stored earlier in the same row.  The result is `none` as soon
as one access fails. -/
def row_SSE4_1_checked (width chunks srcskip dstskip : Nat) (srcfmt : SDL_PixelFormat)
    (smem : Mem) (s : CheckedState) : Option CheckedState :=
  let src := s.src
  let dst := s.dst
  let buffer := forLoop (fun i (st : Option Scratch) => st.bind fun buffer =>
    let colors := _mm_loadu_si128 smem (src + i * 16)
    buffer.store (i * 16) 16 (convertPixelFormatsx4 colors srcfmt)) chunks
    (some s.buffer.forget)
  buffer.bind fun buffer =>
  let dmem := forLoop (fun i (st : Option Mem) => st.bind fun dmem =>
    (buffer.load (i * 8) 8).bind fun c_src =>
    let c_dst := _mm_loadu_si64 dmem (dst + i * 8)
    let c_mix := MixRGBA_SSE4_1 c_src c_dst
    some (_mm_storeu_si64 dmem (dst + i * 8) c_mix)) (chunks * 2) (some s.dmem)
  dmem.bind fun dmem =>
  let dmem := remainder_SSE4_1 width srcfmt smem src dst dmem
  let src := src + 4 * width
  let dst := dst + 4 * width
  let src := src + srcskip
  let dst := dst + dstskip
  some { src := src, dst := dst, buffer := buffer, dmem := dmem }

/-- `BlitNtoNPixelAlpha_SSE4_1` with the scratch buffer allocated by `SDL_malloc` and
accessed through the checked operations: the destination block on return, or `none` when
an access to the scratch buffer falls outside the allocated bytes or reads a byte not
written earlier in the same row. -/
def BlitNtoNPixelAlpha_SSE4_1_checked (info : SDL_BlitInfo) (smem dmem : Mem) : Option Mem :=
  let width := info.dst_w
  let height := info.dst_h
  let src := info.src
  let srcskip := info.src_skip
  let dst := info.dst
  let dstskip := info.dst_skip
  let srcfmt := info.src_fmt
  let chunks := width / 4
  let buffer := SDL_malloc (scratchSize chunks)
  (whileHeight (fun (st : Option CheckedState) =>
      st.bind (row_SSE4_1_checked width chunks srcskip dstskip srcfmt smem)) height
    (some { src := src, dst := dst, buffer := buffer, dmem := dmem })).map (fun s => s.dmem)

/-! ## Vocabulary of the properties -/

/-- The per-channel blend formula of the Alpha Mixer, written from its specification:
`d + ((((s - d) mod 2^16) * a) mod 2^16 >> 8)` truncated to 8 bits, on bytes `s`, `d`
and `a`. -/
def mixChannel (s d a : Nat) : Nat :=
  (d + (s + 65536 - d) % 65536 * a % 65536 / 256) % 256

/-- The per-pixel result of `MixRGBA_SSE4_1`: the low 32 bits of the mix of one source
pixel and one destination pixel, each in the low 32 bits of an otherwise zero register
(the single-pixel path of the blitters). -/
def mixPixel (s d : Nat) : Nat := pixelOf (MixRGBA_SSE4_1 (s % 2 ^ 32) (d % 2 ^ 32)) 0

/-- A pixel layout whose four shifts are byte-aligned: each is 0, 8, 16 or 24. -/
def byteAligned (fmt : SDL_PixelFormat) : Prop :=
  (fmt.Ashift = 0 ∨ fmt.Ashift = 8 ∨ fmt.Ashift = 16 ∨ fmt.Ashift = 24) ∧
  (fmt.Rshift = 0 ∨ fmt.Rshift = 8 ∨ fmt.Rshift = 16 ∨ fmt.Rshift = 24) ∧
  (fmt.Gshift = 0 ∨ fmt.Gshift = 8 ∨ fmt.Gshift = 16 ∨ fmt.Gshift = 24) ∧
  (fmt.Bshift = 0 ∨ fmt.Bshift = 8 ∨ fmt.Bshift = 16 ∨ fmt.Bshift = 24)

instance (fmt : SDL_PixelFormat) : Decidable (byteAligned fmt) := by
  unfold byteAligned; infer_instance

/-- The four shifts of a pixel layout are pairwise distinct. -/
def distinctShifts (fmt : SDL_PixelFormat) : Prop :=
  fmt.Ashift ≠ fmt.Rshift ∧ fmt.Ashift ≠ fmt.Gshift ∧ fmt.Ashift ≠ fmt.Bshift ∧
  fmt.Rshift ≠ fmt.Gshift ∧ fmt.Rshift ≠ fmt.Bshift ∧ fmt.Gshift ≠ fmt.Bshift

instance (fmt : SDL_PixelFormat) : Decidable (distinctShifts fmt) := by
  unfold distinctShifts; infer_instance

/-- The native layout: alpha at bit 24, red at 16, green at 8, blue at 0. -/
def nativeARGB : SDL_PixelFormat := { Ashift := 24, Rshift := 16, Gshift := 8, Bshift := 0 }

/-- The shift of the channel stored in byte `c` of a canonical pixel: blue, green, red,
alpha for `c = 0, 1, 2, 3`. -/
def shiftOf (fmt : SDL_PixelFormat) (c : Nat) : Nat :=
  if c = 0 then fmt.Bshift else if c = 1 then fmt.Gshift else if c = 2 then fmt.Rshift
  else fmt.Ashift

/-- A layout with alpha in the low byte: red at 24, green at 16, blue at 8, alpha at 0. -/
def layoutRGBA : SDL_PixelFormat := { Rshift := 24, Gshift := 16, Bshift := 8, Ashift := 0 }

/-- A sample source block. -/
def sampleSrc : Mem := fun a => (a * 37 + 11) % 256

/-- A sample destination block. -/
def sampleDst : Mem := fun a => (a * 101 + 7) % 256

/-- A sample blit of 3 rows of 7 pixels with different source and destination skips. -/
def sampleBlit : SDL_BlitInfo :=
  { src := 2, src_skip := 3, dst := 1, dst_w := 7, dst_h := 3, dst_skip := 5,
    src_fmt := layoutRGBA }

/-- The 1x1 blit of the concrete scenario: native ARGB source, no skips. -/
def pixelBlit : SDL_BlitInfo :=
  { src := 0, src_skip := 0, dst := 0, dst_w := 1, dst_h := 1, dst_skip := 0,
    src_fmt := nativeARGB }

/-- A source block holding the pixel `0x80FF0000` at offset 0. -/
def pixelSrc : Mem := storeBytes (fun _ => 0) 0 4 0x80FF0000

/-- A destination block holding the pixel `0x00000000` at offset 0. -/
def pixelDst : Mem := fun _ => 0

/-- A sample blit of 3 rows of width 0. -/
def emptyBlit : SDL_BlitInfo :=
  { src := 2, src_skip := 3, dst := 1, dst_w := 0, dst_h := 3, dst_skip := 5,
    src_fmt := layoutRGBA }

/-- A blit of one row of `2^30` pixels: the `int` product `chunks * 16` is `2^32`. -/
def hugeBlit : SDL_BlitInfo :=
  { src := 0, src_skip := 0, dst := 0, dst_w := 2 ^ 30, dst_h := 1, dst_skip := 0,
    src_fmt := nativeARGB }

/-! ## Lane arithmetic -/

theorem pack_lt (B : Nat) (hB : 0 < B) (f : Nat → Nat) (n : Nat) : pack B f n < B ^ n := by
  induction n with
  | zero => simp [pack]
  | succ n ih =>
    have h1 : f n % B < B := Nat.mod_lt _ hB
    have h2 : f n % B * B ^ n ≤ (B - 1) * B ^ n := Nat.mul_le_mul_right _ (by omega)
    have h3 : (B - 1) * B ^ n + B ^ n = B ^ (n + 1) := by
      rw [pow_succ, Nat.sub_mul, one_mul]
      have : B ^ n ≤ B * B ^ n := Nat.le_mul_of_pos_left _ hB
      rw [Nat.mul_comm (B ^ n) B]; omega
    simp only [pack]; omega

theorem digit_pack (B : Nat) (hB : 0 < B) (f : Nat → Nat) (n i : Nat) :
    digit B (pack B f n) i = if i < n then f i % B else 0 := by
  induction n with
  | zero => simp [pack, digit]
  | succ n ih =>
    have hlt := pack_lt B hB f n
    have hpos : 0 < B ^ n := Nat.pow_pos hB
    rcases Nat.lt_trichotomy i n with h | h | h
    · have e : B ^ n = B ^ i * (B * B ^ (n - i - 1)) := by
        rw [← pow_succ', ← pow_add]; congr 1; omega
      have : digit B (pack B f (n + 1)) i = digit B (pack B f n) i := by
        unfold digit
        simp only [pack]
        rw [e, Nat.mul_comm (f n % B), Nat.mul_assoc, Nat.add_mul_div_left _ _ (Nat.pow_pos hB),
          Nat.mul_assoc, Nat.add_mul_mod_self_left]
      rw [this, ih]; simp [h, Nat.lt_succ_of_lt h]
    · subst h
      unfold digit; simp only [pack]
      rw [Nat.add_comm, Nat.mul_comm, Nat.mul_add_div hpos, Nat.div_eq_of_lt hlt]
      simp
    · have hlt2 := pack_lt B hB f (n + 1)
      have : B ^ (n + 1) ≤ B ^ i := Nat.pow_le_pow_right hB h
      unfold digit
      rw [Nat.div_eq_of_lt (by omega)]
      have : ¬ i < n + 1 := by omega
      simp [this]

theorem pack_congr (B : Nat) (f g : Nat → Nat) (n : Nat)
    (h : ∀ i, i < n → f i % B = g i % B) : pack B f n = pack B g n := by
  induction n with
  | zero => rfl
  | succ n ih =>
    simp only [pack]
    rw [ih (fun i hi => h i (Nat.lt_succ_of_lt hi)), h n (Nat.lt_succ_self n)]

theorem mod_pow_eq_pack (B v m : Nat) : v % B ^ m = pack B (digit B v) m := by
  induction m with
  | zero => simp [pack, Nat.mod_one]
  | succ m ih =>
    rw [Nat.mod_pow_succ, ih]
    simp only [pack, digit]
    rw [Nat.mod_mod, Nat.mul_comm]


theorem digit_pow_eq_pack (B v m j : Nat) :
    digit (B ^ m) v j = pack B (fun r => digit B v (m * j + r)) m := by
  unfold digit
  rw [mod_pow_eq_pack]
  apply pack_congr
  intro i _
  unfold digit
  rw [Nat.div_div_eq_div_mul, ← pow_mul, ← pow_add]
theorem digit_digit (B : Nat) (hB : 0 < B) (v m j r : Nat) :
    digit B (digit (B ^ m) v j) r = if r < m then digit B v (m * j + r) else 0 := by
  rw [digit_pow_eq_pack, digit_pack B hB]
  split
  · unfold digit; rw [Nat.mod_mod]
  · rfl

theorem digit_lt (B : Nat) (hB : 0 < B) (v i : Nat) : digit B v i < B := Nat.mod_lt _ hB


theorem byteOf_lt (v i : Nat) : byteOf v i < 256 := digit_lt 256 (by decide) v i

theorem wordOf_lt (v i : Nat) : wordOf v i < 65536 := digit_lt 65536 (by decide) v i

theorem wordOf_eq_bytes (v j : Nat) :
    wordOf v j = byteOf v (2 * j) + 256 * byteOf v (2 * j + 1) := by
  have h := digit_pow_eq_pack 256 v 2 j
  have e : (256 : Nat) ^ 2 = 65536 := by norm_num
  rw [e] at h
  show digit 65536 v j = _
  rw [h]
  simp only [pack, Nat.add_zero, Nat.zero_add, pow_zero, pow_one, Nat.mul_one]
  have h1 := byteOf_lt v (2 * j)
  have h2 := byteOf_lt v (2 * j + 1)
  unfold byteOf at *
  omega

theorem byteOf_even (v j : Nat) : byteOf v (2 * j) = wordOf v j % 256 := by
  have := wordOf_eq_bytes v j
  have h1 := byteOf_lt v (2 * j)
  omega

theorem byteOf_odd (v j : Nat) : byteOf v (2 * j + 1) = wordOf v j / 256 := by
  have := wordOf_eq_bytes v j
  have h1 := byteOf_lt v (2 * j)
  have h2 := byteOf_lt v (2 * j + 1)
  omega

theorem byteOf_add_epi8 (a b i : Nat) :
    byteOf (_mm_add_epi8 a b) i = if i < 16 then (byteOf a i + byteOf b i) % 256 else 0 := by
  unfold _mm_add_epi8 byteOf
  rw [digit_pack 256 (by decide)]
  simp

theorem byteOf_shuffle_epi8 (a b i : Nat) :
    byteOf (_mm_shuffle_epi8 a b) i =
      if i < 16 then (if 128 ≤ byteOf b i then 0 else byteOf a (byteOf b i % 16)) else 0 := by
  unfold _mm_shuffle_epi8
  show digit 256 _ i = _
  rw [digit_pack 256 (by decide)]
  split
  · split
    · rfl
    · exact Nat.mod_eq_of_lt (byteOf_lt _ _)
  · rfl

theorem byteOf_set_epi8 (es : List Int) (i : Nat) :
    byteOf (_mm_set_epi8 es) i =
      if i < 16 then ((es.reverse.getD i 0) % 256).toNat % 256 else 0 := by
  unfold _mm_set_epi8
  show digit 256 _ i = _
  rw [digit_pack 256 (by decide)]

theorem wordOf_cvtepu8_epi16 (a j : Nat) :
    wordOf (_mm_cvtepu8_epi16 a) j = if j < 8 then byteOf a j else 0 := by
  unfold _mm_cvtepu8_epi16
  show digit 65536 _ j = _
  rw [digit_pack 65536 (by decide)]
  split
  · have := byteOf_lt a j
    omega
  · rfl

theorem wordOf_sub_epi16 (a b j : Nat) :
    wordOf (_mm_sub_epi16 a b) j =
      if j < 8 then (wordOf a j + 65536 - wordOf b j) % 65536 else 0 := by
  unfold _mm_sub_epi16
  show digit 65536 _ j = _
  rw [digit_pack 65536 (by decide)]
  simp

theorem wordOf_mullo_epi16 (a b j : Nat) :
    wordOf (_mm_mullo_epi16 a b) j = if j < 8 then wordOf a j * wordOf b j % 65536 else 0 := by
  unfold _mm_mullo_epi16
  show digit 65536 _ j = _
  rw [digit_pack 65536 (by decide)]
  simp



theorem SHUFFLE_ALPHA_byte (k : Nat) (hk : k < 16) :
    byteOf (_mm_set_epi8 [-1, 7, -1, 7, -1, 7, -1, 7, -1, 3, -1, 3, -1, 3, -1, 3]) k =
      if k % 2 = 0 then 4 * (k / 8) + 3 else 255 := by
  interval_cases k <;> decide

theorem SHUFFLE_REDUCE_byte (k : Nat) (hk : k < 16) :
    byteOf (_mm_set_epi8 [-1, -1, -1, -1, -1, -1, -1, -1, 15, 13, 11, 9, 7, 5, 3, 1]) k =
      if k < 8 then 2 * k + 1 else 255 := by
  interval_cases k <;> decide

theorem byteOf_MixRGBA_SSE4_1 (src dst i : Nat) (hi : i < 8) :
    byteOf (MixRGBA_SSE4_1 src dst) i =
      mixChannel (byteOf src i) (byteOf dst i) (byteOf src (4 * (i / 4) + 3)) := by
  have hi16 : i < 16 := by omega
  have h2i : 2 * i < 16 := by omega
  have h2i1 : 2 * i + 1 < 16 := by omega
  have hm : (2 * i + 1) % 16 = 2 * i + 1 := Nat.mod_eq_of_lt h2i1
  have ha : wordOf (_mm_shuffle_epi8 src
      (_mm_set_epi8 [-1, 7, -1, 7, -1, 7, -1, 7, -1, 3, -1, 3, -1, 3, -1, 3])) i =
      byteOf src (4 * (i / 4) + 3) := by
    rw [wordOf_eq_bytes, byteOf_shuffle_epi8, byteOf_shuffle_epi8, SHUFFLE_ALPHA_byte _ h2i,
      SHUFFLE_ALPHA_byte _ h2i1]
    have e1 : 2 * i % 2 = 0 := by omega
    have e2 : ¬ (2 * i + 1) % 2 = 0 := by omega
    have e3 : 2 * i / 8 = i / 4 := by omega
    have e4 : ¬ 128 ≤ 4 * (i / 4) + 3 := by omega
    have e5 : (4 * (i / 4) + 3) % 16 = 4 * (i / 4) + 3 := by omega
    simp [h2i, h2i1, e1, e2, e3, e4, e5]
  unfold MixRGBA_SSE4_1
  simp only []
  rw [byteOf_add_epi8, if_pos hi16, byteOf_shuffle_epi8, if_pos hi16, SHUFFLE_REDUCE_byte _ hi16,
    if_pos hi, if_neg (by omega), hm, byteOf_odd, wordOf_mullo_epi16, if_pos hi, ha,
    wordOf_sub_epi16, if_pos hi, wordOf_cvtepu8_epi16, if_pos hi, wordOf_cvtepu8_epi16, if_pos hi]
  unfold mixChannel
  rw [Nat.add_comm]

theorem byteOf_MixRGBA_SSE4_1_high (src dst i : Nat) (hi : 8 ≤ i) :
    byteOf (MixRGBA_SSE4_1 src dst) i = if i < 16 then byteOf dst i else 0 := by
  unfold MixRGBA_SSE4_1
  simp only []
  rw [byteOf_add_epi8]
  split
  · rename_i h
    have hn : ¬ i < 8 := by omega
    rw [byteOf_shuffle_epi8, if_pos h, SHUFFLE_REDUCE_byte _ h, if_neg hn, if_pos (by omega)]
    have := byteOf_lt dst i
    omega
  · rfl

theorem byteOf_mod_pow (v n i : Nat) (hi : i < n) : byteOf (v % 256 ^ n) i = byteOf v i := by
  show digit 256 _ i = digit 256 v i
  rw [mod_pow_eq_pack, digit_pack 256 (by decide), if_pos hi]
  exact Nat.mod_eq_of_lt (digit_lt 256 (by decide) v i)

theorem byteOf_qwordOf (v j r : Nat) (hr : r < 8) :
    byteOf (qwordOf v j) r = byteOf v (8 * j + r) := by
  have h := digit_digit 256 (by decide) v 8 j r
  have e : (256 : Nat) ^ 8 = 2 ^ 64 := by norm_num
  rw [e, if_pos hr] at h
  exact h

theorem byteOf_eq_byteOf_qwordOf (v i : Nat) :
    byteOf v i = byteOf (qwordOf v (i / 8)) (i % 8) := by
  rw [byteOf_qwordOf _ _ _ (Nat.mod_lt _ (by decide)), Nat.div_add_mod]

theorem byteOf_castsi256_si128 (a i : Nat) (hi : i < 16) :
    byteOf (_mm256_castsi256_si128 a) i = byteOf a i := by
  have e : (2 : Nat) ^ 128 = 256 ^ 16 := by norm_num
  unfold _mm256_castsi256_si128
  rw [e, byteOf_mod_pow _ _ _ hi]

theorem byteOf_permute4x64_epi64 (a imm8 i : Nat) (hi : i < 32) :
    byteOf (_mm256_permute4x64_epi64 a imm8) i =
      byteOf a (8 * (imm8 / 4 ^ (i / 8) % 4) + i % 8) := by
  rw [byteOf_eq_byteOf_qwordOf]
  unfold _mm256_permute4x64_epi64
  have h4 : i / 8 < 4 := by omega
  have : qwordOf (pack (2 ^ 64) (fun j => qwordOf a (imm8 / 4 ^ j % 4)) 4) (i / 8) =
      qwordOf a (imm8 / 4 ^ (i / 8) % 4) := by
    show digit (2 ^ 64) _ _ = _
    rw [digit_pack _ (by norm_num), if_pos h4]
    exact Nat.mod_eq_of_lt (digit_lt _ (by norm_num) _ _)
  rw [this, byteOf_qwordOf _ _ _ (Nat.mod_lt _ (by decide))]

theorem byteOf_shuffle256_epi8 (a b i : Nat) :
    byteOf (_mm256_shuffle_epi8 a b) i =
      if i < 32 then (if 128 ≤ byteOf b i then 0
        else byteOf a (i / 16 * 16 + byteOf b i % 16)) else 0 := by
  unfold _mm256_shuffle_epi8
  show digit 256 _ i = _
  rw [digit_pack 256 (by decide)]
  split
  · split
    · rfl
    · exact Nat.mod_eq_of_lt (byteOf_lt _ _)
  · rfl

theorem wordOf_cvtepu8_epi16_256 (a j : Nat) :
    wordOf (_mm256_cvtepu8_epi16 a) j = if j < 16 then byteOf a j else 0 := by
  unfold _mm256_cvtepu8_epi16
  show digit 65536 _ j = _
  rw [digit_pack 65536 (by decide)]
  split
  · have := byteOf_lt a j
    omega
  · rfl

theorem wordOf_sub_epi16_256 (a b j : Nat) :
    wordOf (_mm256_sub_epi16 a b) j =
      if j < 16 then (wordOf a j + 65536 - wordOf b j) % 65536 else 0 := by
  unfold _mm256_sub_epi16
  show digit 65536 _ j = _
  rw [digit_pack 65536 (by decide)]
  simp

theorem wordOf_mullo_epi16_256 (a b j : Nat) :
    wordOf (_mm256_mullo_epi16 a b) j =
      if j < 16 then wordOf a j * wordOf b j % 65536 else 0 := by
  unfold _mm256_mullo_epi16
  show digit 65536 _ j = _
  rw [digit_pack 65536 (by decide)]
  simp

theorem SHUFFLE_ALPHA_256_byte (k : Nat) (hk : k < 32) :
    byteOf (_mm256_set_epi8
      [-1, 30, -1, 30, -1, 30, -1, 30, -1, 22, -1, 22, -1, 22, -1, 22,
       -1, 14, -1, 14, -1, 14, -1, 14, -1, 6, -1, 6, -1, 6, -1, 6]) k =
      if k % 2 = 0 then 8 * (k / 8) + 6 else 255 := by
  interval_cases k <;> decide

theorem SHUFFLE_REDUCE_256_byte (k : Nat) (hk : k < 32) :
    byteOf (_mm256_set_epi8
      [-1, -1, -1, -1, -1, -1, -1, -1, 31, 29, 27, 25, 23, 21, 19, 17,
       -1, -1, -1, -1, -1, -1, -1, -1, 15, 13, 11, 9, 7, 5, 3, 1]) k =
      if k % 16 < 8 then 16 * (k / 16) + 2 * (k % 16) + 1 else 255 := by
  interval_cases k <;> decide

theorem MM_SHUFFLE_3120 : _MM_SHUFFLE 3 1 2 0 = 216 := by decide

theorem byteOf_MixRGBA_AVX2 (src dst i : Nat) (hi : i < 16) :
    byteOf (MixRGBA_AVX2 src dst) i =
      mixChannel (byteOf src i) (byteOf dst i) (byteOf src (4 * (i / 4) + 3)) := by
  have hq : 8 * (216 / 4 ^ (i / 8) % 4) + i % 8 = 16 * (i / 8) + i % 8 := by
    have : i / 8 = 0 ∨ i / 8 = 1 := by omega
    rcases this with h | h <;> rw [h] <;> norm_num
  have hk : 16 * (i / 8) + i % 8 < 32 := by omega
  have hk1 : (16 * (i / 8) + i % 8) % 16 < 8 := by omega
  have hk2 : 16 * ((16 * (i / 8) + i % 8) / 16) + 2 * ((16 * (i / 8) + i % 8) % 16) + 1
      = 16 * (i / 8) + (2 * (i % 8) + 1) := by omega
  have hk3 : (16 * (i / 8) + i % 8) / 16 * 16 + (16 * (i / 8) + (2 * (i % 8) + 1)) % 16
      = 2 * i + 1 := by omega
  have h2i : 2 * i < 32 := by omega
  have h2i1 : 2 * i + 1 < 32 := by omega
  have ha : wordOf (_mm256_shuffle_epi8 (_mm256_cvtepu8_epi16 src) (_mm256_set_epi8
      [-1, 30, -1, 30, -1, 30, -1, 30, -1, 22, -1, 22, -1, 22, -1, 22,
       -1, 14, -1, 14, -1, 14, -1, 14, -1, 6, -1, 6, -1, 6, -1, 6])) i =
      byteOf src (4 * (i / 4) + 3) := by
    rw [wordOf_eq_bytes, byteOf_shuffle256_epi8, byteOf_shuffle256_epi8,
      SHUFFLE_ALPHA_256_byte _ h2i, SHUFFLE_ALPHA_256_byte _ h2i1]
    have e1 : 2 * i % 2 = 0 := by omega
    have e2 : ¬ (2 * i + 1) % 2 = 0 := by omega
    have e4 : ¬ 128 ≤ 8 * (2 * i / 8) + 6 := by omega
    have e5 : 2 * i / 16 * 16 + (8 * (2 * i / 8) + 6) % 16 = 2 * (4 * (i / 4) + 3) := by omega
    rw [if_pos h2i, if_pos e1, if_neg e4, e5, if_pos h2i1, if_neg e2, if_pos (by decide),
      byteOf_even, wordOf_cvtepu8_epi16_256, if_pos (by omega)]
    have := byteOf_lt src (4 * (i / 4) + 3)
    omega
  unfold MixRGBA_AVX2
  simp only []
  rw [byteOf_add_epi8, if_pos hi, byteOf_castsi256_si128 _ _ hi, MM_SHUFFLE_3120,
    byteOf_permute4x64_epi64 _ _ _ (by omega), hq, byteOf_shuffle256_epi8, if_pos hk,
    SHUFFLE_REDUCE_256_byte _ hk, if_pos hk1, hk2, if_neg (by omega), hk3, byteOf_odd,
    wordOf_mullo_epi16_256, if_pos hi, ha, wordOf_sub_epi16_256, if_pos hi,
    wordOf_cvtepu8_epi16_256, if_pos hi, wordOf_cvtepu8_epi16_256, if_pos hi]
  unfold mixChannel
  rw [Nat.add_comm]

/-! ## Arithmetic of one channel -/

theorem mixChannel_of_le (s d a : Nat) (hs : s < 256) (ha : a < 256) (h : d ≤ s) :
    mixChannel s d a = d + (s - d) * a / 256 := by
  unfold mixChannel
  have e : (s + 65536 - d) % 65536 = s - d := by omega
  have hp : (s - d) * a ≤ (s - d) * 255 := Nat.mul_le_mul_left _ (by omega)
  rw [e]
  generalize (s - d) * a = p at hp
  omega

theorem mixChannel_of_gt (s d a : Nat) (hd : d < 256) (ha : a < 256) (h : s < d) :
    mixChannel s d a = d - ((d - s) * a + 255) / 256 := by
  unfold mixChannel
  have e : (s + 65536 - d) % 65536 = 65536 - (d - s) := by omega
  have hp : (d - s) * a ≤ (d - s) * 255 := Nat.mul_le_mul_left _ (by omega)
  have hq : (65536 - (d - s)) * a = 65536 * a - (d - s) * a := Nat.sub_mul _ _ _
  have hp2 : (d - s) * a ≤ 255 * a := Nat.mul_le_mul_right _ (by omega)
  rw [e, hq]
  generalize (d - s) * a = p at hp hp2
  omega

theorem mixChannel_lt (s d a : Nat) : mixChannel s d a < 256 := Nat.mod_lt _ (by decide)

theorem mixChannel_between (s d a : Nat) (hs : s < 256) (hd : d < 256) (ha : a < 256) :
    min s d ≤ mixChannel s d a ∧ mixChannel s d a ≤ max s d := by
  rcases Nat.lt_or_ge s d with h | h
  · rw [mixChannel_of_gt s d a hd ha h]
    have hp : (d - s) * a ≤ (d - s) * 255 := Nat.mul_le_mul_left _ (by omega)
    generalize (d - s) * a = p at hp
    omega
  · rw [mixChannel_of_le s d a hs ha h]
    have hp : (s - d) * a ≤ (s - d) * 255 := Nat.mul_le_mul_left _ (by omega)
    generalize (s - d) * a = p at hp
    omega

theorem mixChannel_alpha_zero (s d : Nat) (hd : d < 256) : mixChannel s d 0 = d := by
  unfold mixChannel
  simp
  omega

theorem mixChannel_alpha_255 (s d : Nat) (hs : s < 256) (hd : d < 256) :
    mixChannel s d 255 = if s ≤ d then s else s - 1 := by
  rcases Nat.lt_or_ge s d with h | h
  · rw [mixChannel_of_gt s d 255 hd (by decide) h]
    split <;> omega
  · rw [mixChannel_of_le s d 255 hs (by decide) h]
    split <;> omega

theorem mixChannel_int (s d a : Nat) (hd : d < 256) :
    (mixChannel s d a : Int) =
      ((d : Int) + ((s : Int) - d) % 2 ^ 16 * a % 2 ^ 16 / 2 ^ 8) % 256 := by
  have hX : ((s : Int) - d) % 2 ^ 16 = (((s + 65536 - d) % 65536 : Nat) : Int) := by omega
  rw [hX]
  unfold mixChannel
  push_cast
  rfl


/-! ## Pixels of a register -/

theorem pixelOf_eq_pack (v i : Nat) :
    pixelOf v i = pack 256 (fun r => byteOf v (4 * i + r)) 4 := by
  have h := digit_pow_eq_pack 256 v 4 i
  have e : (256 : Nat) ^ 4 = 2 ^ 32 := by norm_num
  rw [e] at h
  exact h

theorem byteOf_pixelOf (v i c : Nat) (hc : c < 4) :
    byteOf (pixelOf v i) c = byteOf v (4 * i + c) := by
  have h := digit_digit 256 (by decide) v 4 i c
  have e : (256 : Nat) ^ 4 = 2 ^ 32 := by norm_num
  rw [e, if_pos hc] at h
  exact h

theorem pixelOf_lt (v i : Nat) : pixelOf v i < 2 ^ 32 := digit_lt _ (by norm_num) v i

theorem pixelOf_zero_of_lt (x : Nat) (hx : x < 2 ^ 32) : pixelOf x 0 = x := by
  show digit (2 ^ 32) x 0 = x
  unfold digit
  rw [pow_zero, Nat.div_one, Nat.mod_eq_of_lt hx]

theorem pixelOf_congr (a b i j : Nat)
    (h : ∀ c, c < 4 → byteOf a (4 * i + c) = byteOf b (4 * j + c)) :
    pixelOf a i = pixelOf b j := by
  rw [pixelOf_eq_pack, pixelOf_eq_pack]
  apply pack_congr
  intro c hc
  rw [h c hc]

theorem byteOf_mod_two_pow_32 (x c : Nat) (hc : c < 4) : byteOf (x % 2 ^ 32) c = byteOf x c := by
  have e : (2 : Nat) ^ 32 = 256 ^ 4 := by norm_num
  rw [e, byteOf_mod_pow _ _ _ hc]

theorem byteOf_mixPixel (s d c : Nat) (hc : c < 4) :
    byteOf (mixPixel s d) c = mixChannel (byteOf s c) (byteOf d c) (byteOf s 3) := by
  unfold mixPixel
  have h0 : (4 * 0 + c) / 4 = 0 := by omega
  rw [byteOf_pixelOf _ _ _ hc, byteOf_MixRGBA_SSE4_1 _ _ _ (by omega), h0]
  simp only [Nat.mul_zero, Nat.zero_add]
  rw [byteOf_mod_two_pow_32 _ _ hc, byteOf_mod_two_pow_32 _ _ hc,
    byteOf_mod_two_pow_32 _ _ (by decide)]

theorem mixPixel_lt (s d : Nat) : mixPixel s d < 2 ^ 32 := pixelOf_lt _ _

theorem eq_of_bytes (x y : Nat) (hx : x < 2 ^ 32) (hy : y < 2 ^ 32)
    (h : ∀ c, c < 4 → byteOf x c = byteOf y c) : x = y := by
  rw [← pixelOf_zero_of_lt x hx, ← pixelOf_zero_of_lt y hy]
  apply pixelOf_congr
  intro c hc
  simpa using h c hc


/-! ## The Alpha Mixer -/

set_option maxRecDepth 8000

/-- C1: each of the 8 low bytes of `MixRGBA_SSE4_1 src dst` is
`(d + ((((s - d) mod 2^16) * a) mod 2^16 >> 8)) mod 256`, with `s` and `d` the source
and destination bytes at that position and `a` byte 3 of the same source pixel; the
shift keeps bits 8-15 of the 16-bit product. -/
theorem MixRGBA_SSE4_1_channel_formula (src dst i : Nat) (hi : i < 8) :
    (byteOf (MixRGBA_SSE4_1 src dst) i : Int) =
      ((byteOf dst i : Int) +
        (((byteOf src i : Int) - byteOf dst i) % 2 ^ 16 * byteOf (pixelOf src (i / 4)) 3)
          % 2 ^ 16 / 2 ^ 8) % 256 := by
  rw [byteOf_MixRGBA_SSE4_1 src dst i hi, byteOf_pixelOf _ _ _ (by decide),
    mixChannel_int _ _ _ (byteOf_lt dst i)]

/-- Witness of C1: the alpha byte of source pixel `0x80FF0000` over destination `0`. -/
theorem MixRGBA_SSE4_1_channel_formula_witness :
    (byteOf (MixRGBA_SSE4_1 0x80FF0000 0) 3 : Int) =
      ((byteOf 0 3 : Int) +
        (((byteOf 0x80FF0000 3 : Int) - byteOf 0 3) % 2 ^ 16
          * byteOf (pixelOf 0x80FF0000 (3 / 4)) 3) % 2 ^ 16 / 2 ^ 8) % 256 :=
  MixRGBA_SSE4_1_channel_formula 0x80FF0000 0 3 (by decide)

/-- Counterexample to C2: opaque white (alpha 255) over black does not come out as the
source pixel, neither from `MixRGBA_SSE4_1` nor from `MixRGBA_AVX2`: every channel is
254. -/
theorem opaque_source_not_copied :
    byteOf (pixelOf 0xFFFFFFFF 0) 3 = 255 ∧
    pixelOf (MixRGBA_SSE4_1 0xFFFFFFFF 0) 0 = 0xFEFEFEFE ∧
    pixelOf (MixRGBA_AVX2 0xFFFFFFFF 0) 0 = 0xFEFEFEFE ∧
    pixelOf (MixRGBA_SSE4_1 0xFFFFFFFF 0) 0 ≠ pixelOf 0xFFFFFFFF 0 ∧
    pixelOf (MixRGBA_AVX2 0xFFFFFFFF 0) 0 ≠ pixelOf 0xFFFFFFFF 0 := by
  decide

/-- C2, amended: when the alpha byte of source pixel `i` is 255, each channel of pixel
`i` of `MixRGBA_SSE4_1 src dst` (`i < 2`) and of `MixRGBA_AVX2 src dst` (`i < 4`) is the
source channel when that does not exceed the destination channel, and the source channel
minus one otherwise. -/
theorem opaque_source_channels (src dst i c : Nat) (hc : c < 4)
    (ha : byteOf (pixelOf src i) 3 = 255) :
    (i < 2 → byteOf (pixelOf (MixRGBA_SSE4_1 src dst) i) c =
      if byteOf (pixelOf src i) c ≤ byteOf (pixelOf dst i) c
      then byteOf (pixelOf src i) c else byteOf (pixelOf src i) c - 1) ∧
    (i < 4 → byteOf (pixelOf (MixRGBA_AVX2 src dst) i) c =
      if byteOf (pixelOf src i) c ≤ byteOf (pixelOf dst i) c
      then byteOf (pixelOf src i) c else byteOf (pixelOf src i) c - 1) := by
  have hq : (4 * i + c) / 4 = i := by omega
  rw [byteOf_pixelOf _ _ _ (by decide)] at ha
  constructor
  · intro hi
    rw [byteOf_pixelOf _ _ _ hc, byteOf_pixelOf _ _ _ hc, byteOf_pixelOf _ _ _ hc,
      byteOf_MixRGBA_SSE4_1 _ _ _ (by omega), hq, ha,
      mixChannel_alpha_255 _ _ (byteOf_lt _ _) (byteOf_lt _ _)]
  · intro hi
    rw [byteOf_pixelOf _ _ _ hc, byteOf_pixelOf _ _ _ hc, byteOf_pixelOf _ _ _ hc,
      byteOf_MixRGBA_AVX2 _ _ _ (by omega), hq, ha,
      mixChannel_alpha_255 _ _ (byteOf_lt _ _) (byteOf_lt _ _)]

/-- Witness of the amended C2: the red channel of opaque `0xFF804020` over `0x00104080`. -/
theorem opaque_source_channels_witness :
    (0 < 2 → byteOf (pixelOf (MixRGBA_SSE4_1 0xFF804020 0x00104080) 0) 2 =
      if byteOf (pixelOf 0xFF804020 0) 2 ≤ byteOf (pixelOf 0x00104080 0) 2
      then byteOf (pixelOf 0xFF804020 0) 2 else byteOf (pixelOf 0xFF804020 0) 2 - 1) ∧
    (0 < 4 → byteOf (pixelOf (MixRGBA_AVX2 0xFF804020 0x00104080) 0) 2 =
      if byteOf (pixelOf 0xFF804020 0) 2 ≤ byteOf (pixelOf 0x00104080 0) 2
      then byteOf (pixelOf 0xFF804020 0) 2 else byteOf (pixelOf 0xFF804020 0) 2 - 1) :=
  opaque_source_channels 0xFF804020 0x00104080 0 2 (by decide) (by decide)

/-- C3: when the alpha byte of source pixel `i` is 0, pixel `i` of
`MixRGBA_SSE4_1 src dst` is pixel `i` of `dst`; in particular a transparent source over
an already blended result `MixRGBA_SSE4_1 src0 dst0` returns that result. -/
theorem transparent_source_keeps_destination (src i : Nat) (hi : i < 2)
    (ha : byteOf (pixelOf src i) 3 = 0) :
    (∀ dst, pixelOf (MixRGBA_SSE4_1 src dst) i = pixelOf dst i) ∧
    (∀ src0 dst0, pixelOf (MixRGBA_SSE4_1 src (MixRGBA_SSE4_1 src0 dst0)) i =
      pixelOf (MixRGBA_SSE4_1 src0 dst0) i) := by
  rw [byteOf_pixelOf _ _ _ (by decide)] at ha
  have key : ∀ dst, pixelOf (MixRGBA_SSE4_1 src dst) i = pixelOf dst i := by
    intro dst
    apply pixelOf_congr
    intro c hc
    have hq : (4 * i + c) / 4 = i := by omega
    rw [byteOf_MixRGBA_SSE4_1 _ _ _ (by omega), hq, ha,
      mixChannel_alpha_zero _ _ (byteOf_lt _ _)]
  exact ⟨key, fun src0 dst0 => key _⟩

/-- Witness of C3: the transparent pixel `0x00123456` in lane 1. -/
theorem transparent_source_keeps_destination_witness :
    (∀ dst, pixelOf (MixRGBA_SSE4_1 0x0012345680FF0000 dst) 1 = pixelOf dst 1) ∧
    (∀ src0 dst0, pixelOf (MixRGBA_SSE4_1 0x0012345680FF0000 (MixRGBA_SSE4_1 src0 dst0)) 1 =
      pixelOf (MixRGBA_SSE4_1 src0 dst0) 1) :=
  transparent_source_keeps_destination 0x0012345680FF0000 1 (by decide) (by decide)

/-- C4: every channel `c` of every pixel `i` of `MixRGBA_SSE4_1 src dst` lies between
the source and the destination value of that channel, whatever the alpha byte is. -/
theorem MixRGBA_SSE4_1_no_overshoot (src dst i c : Nat) (hi : i < 2) (hc : c < 4) :
    min (byteOf (pixelOf src i) c) (byteOf (pixelOf dst i) c)
        ≤ byteOf (pixelOf (MixRGBA_SSE4_1 src dst) i) c ∧
      byteOf (pixelOf (MixRGBA_SSE4_1 src dst) i) c
        ≤ max (byteOf (pixelOf src i) c) (byteOf (pixelOf dst i) c) := by
  rw [byteOf_pixelOf _ _ _ hc, byteOf_pixelOf _ _ _ hc, byteOf_pixelOf _ _ _ hc,
    byteOf_MixRGBA_SSE4_1 _ _ _ (by omega)]
  exact mixChannel_between _ _ _ (byteOf_lt _ _) (byteOf_lt _ _) (byteOf_lt _ _)

/-- Witness of C4: the green channel of lane 1, source `0x20` under destination `0xFF` with
alpha 200, where the 16-bit difference and product wrap. -/
theorem MixRGBA_SSE4_1_no_overshoot_witness :
    min (byteOf (pixelOf 0xC810203000123456 1) 1) (byteOf (pixelOf 0xFFFFFFFFFFFFFFFF 1) 1)
        ≤ byteOf (pixelOf (MixRGBA_SSE4_1 0xC810203000123456 0xFFFFFFFFFFFFFFFF) 1) 1 ∧
      byteOf (pixelOf (MixRGBA_SSE4_1 0xC810203000123456 0xFFFFFFFFFFFFFFFF) 1) 1
        ≤ max (byteOf (pixelOf 0xC810203000123456 1) 1)
            (byteOf (pixelOf 0xFFFFFFFFFFFFFFFF 1) 1) :=
  MixRGBA_SSE4_1_no_overshoot 0xC810203000123456 0xFFFFFFFFFFFFFFFF 1 1 (by decide)
    (by decide)

/-- C6: pixel `i` (`i < 4`) of `MixRGBA_AVX2 src dst` is the low 32 bits of
`MixRGBA_SSE4_1` applied to pixel `i` of `src` and pixel `i` of `dst`, each alone in the
low 32 bits of a zero register. -/
theorem MixRGBA_AVX2_eq_scalar (src dst i : Nat) (hi : i < 4) :
    pixelOf (MixRGBA_AVX2 src dst) i =
      pixelOf (MixRGBA_SSE4_1 (pixelOf src i) (pixelOf dst i)) 0 := by
  apply pixelOf_congr
  intro c hc
  have hq : (4 * i + c) / 4 = i := by omega
  have h0 : (4 * 0 + c) / 4 = 0 := by omega
  rw [byteOf_MixRGBA_AVX2 _ _ _ (by omega), byteOf_MixRGBA_SSE4_1 _ _ _ (by omega), hq, h0]
  simp only [Nat.mul_zero, Nat.zero_add]
  rw [byteOf_pixelOf _ _ _ hc, byteOf_pixelOf _ _ _ hc, byteOf_pixelOf _ _ _ (by decide)]

/-- Witness of C6: lane 3 of a register of four pixels. -/
theorem MixRGBA_AVX2_eq_scalar_witness :
    pixelOf (MixRGBA_AVX2 0x80FF0000FF00000040102030017F80FF 0x112233445566778899AABBCCDDEEFF00) 3 =
      pixelOf (MixRGBA_SSE4_1 (pixelOf 0x80FF0000FF00000040102030017F80FF 3)
        (pixelOf 0x112233445566778899AABBCCDDEEFF00 3)) 0 :=
  MixRGBA_AVX2_eq_scalar 0x80FF0000FF00000040102030017F80FF 0x112233445566778899AABBCCDDEEFF00 3
    (by decide)

/-- C10: for a source pixel `s` whose alpha byte is 255, blending twice is blending
once: `mixPixel s (mixPixel s d) = mixPixel s d`. -/
theorem opaque_blend_idempotent (s d : Nat) (ha : byteOf s 3 = 255) :
    mixPixel s (mixPixel s d) = mixPixel s d := by
  apply eq_of_bytes _ _ (mixPixel_lt _ _) (mixPixel_lt _ _)
  intro c hc
  have h1 := byteOf_lt s c
  have h2 := byteOf_lt d c
  have h3 : (if byteOf s c ≤ byteOf d c then byteOf s c else byteOf s c - 1) < 256 := by
    split <;> omega
  rw [byteOf_mixPixel _ _ _ hc, byteOf_mixPixel _ _ _ hc, ha,
    mixChannel_alpha_255 _ _ h1 h2, mixChannel_alpha_255 _ _ h1 h3]
  split <;> split <;> omega

/-- Witness of C10: opaque `0xFF804020` over `0x10C04000`. -/
theorem opaque_blend_idempotent_witness :
    mixPixel 0xFF804020 (mixPixel 0xFF804020 0x10C04000) = mixPixel 0xFF804020 0x10C04000 :=
  opaque_blend_idempotent 0xFF804020 0x10C04000 (by decide)


/-! ## The Channel Extractor -/

theorem shift_mask_eq_byteOf (color k : Nat) : (color >>> (8 * k)) &&& 0xFF = byteOf color k := by
  have e : (0xFF : Nat) = 2 ^ 8 - 1 := by norm_num
  rw [e, Nat.and_pow_two_sub_one_eq_mod, Nat.shiftRight_eq_div_pow, pow_mul]
  rfl

theorem pack_channels (a r g b : Nat) (hr : r < 256) (hg : g < 256) (hb : b < 256) :
    ((a <<< 24) ||| (r <<< 16) ||| (g <<< 8) ||| b) % 2 ^ 32 =
      pack 256 (fun c => if c = 0 then b else if c = 1 then g else if c = 2 then r else a) 4 := by
  have h1 : a <<< 24 ||| r <<< 16 = 2 ^ 24 * a + r * 2 ^ 16 := by
    rw [Nat.shiftLeft_eq, Nat.shiftLeft_eq, Nat.mul_comm a, ← Nat.mul_add_lt_is_or (by omega)]
  have h2 : 2 ^ 24 * a + r * 2 ^ 16 = 2 ^ 16 * (2 ^ 8 * a + r) := by omega
  have h3 : 2 ^ 16 * (2 ^ 8 * a + r) ||| g <<< 8 = 2 ^ 16 * (2 ^ 8 * a + r) + g * 2 ^ 8 := by
    rw [Nat.shiftLeft_eq, ← Nat.mul_add_lt_is_or (by omega)]
  have h4 : 2 ^ 16 * (2 ^ 8 * a + r) + g * 2 ^ 8 = 2 ^ 8 * (2 ^ 16 * a + 2 ^ 8 * r + g) := by
    omega
  rw [h1, h2, h3, h4, ← Nat.mul_add_lt_is_or (by omega)]
  simp only [pack]
  norm_num
  omega


theorem byteAligned_shiftOf (fmt : SDL_PixelFormat) (h : byteAligned fmt) (c : Nat) :
    shiftOf fmt c = 0 ∨ shiftOf fmt c = 8 ∨ shiftOf fmt c = 16 ∨ shiftOf fmt c = 24 := by
  obtain ⟨hA, hR, hG, hB⟩ := h
  unfold shiftOf
  split
  · exact hB
  · split
    · exact hG
    · split
      · exact hR
      · exact hA

theorem byteOf_convertPixelFormat (color : Nat) (fmt : SDL_PixelFormat) (h : byteAligned fmt)
    (c : Nat) (hc : c < 4) :
    byteOf (convertPixelFormat color fmt) c = byteOf color (shiftOf fmt c / 8) := by
  have key : ∀ s, (s = 0 ∨ s = 8 ∨ s = 16 ∨ s = 24) →
      (color >>> s) &&& 0xFF = byteOf color (s / 8) := by
    intro s hs
    have e : s = 8 * (s / 8) := by omega
    rw [← shift_mask_eq_byteOf, ← e]
  obtain ⟨hA, hR, hG, hB⟩ := h
  unfold convertPixelFormat
  simp only []
  rw [key _ hA, key _ hR, key _ hG, key _ hB,
    pack_channels _ _ _ _ (byteOf_lt _ _) (byteOf_lt _ _) (byteOf_lt _ _)]
  show digit 256 _ c = _
  rw [digit_pack 256 (by decide), if_pos hc]
  unfold shiftOf
  have hl := byteOf_lt color
  split
  · exact Nat.mod_eq_of_lt (hl _)
  · split
    · exact Nat.mod_eq_of_lt (hl _)
    · split
      · exact Nat.mod_eq_of_lt (hl _)
      · exact Nat.mod_eq_of_lt (hl _)

theorem convertPixelFormat_lt (color : Nat) (fmt : SDL_PixelFormat) :
    convertPixelFormat color fmt < 2 ^ 32 := Nat.mod_lt _ (by norm_num)

theorem srcShuffleMask_byte (fmt : SDL_PixelFormat) (k : Nat) (hk : k < 16) :
    byteOf (_mm_set_epi8
      [fmt.Ashift / 8 + 12, fmt.Rshift / 8 + 12, fmt.Gshift / 8 + 12, fmt.Bshift / 8 + 12,
       fmt.Ashift / 8 + 8, fmt.Rshift / 8 + 8, fmt.Gshift / 8 + 8, fmt.Bshift / 8 + 8,
       fmt.Ashift / 8 + 4, fmt.Rshift / 8 + 4, fmt.Gshift / 8 + 4, fmt.Bshift / 8 + 4,
       fmt.Ashift / 8, fmt.Rshift / 8, fmt.Gshift / 8, fmt.Bshift / 8]) k =
      (shiftOf fmt (k % 4) / 8 + 4 * (k / 4)) % 256 := by
  rw [byteOf_set_epi8, if_pos hk]
  interval_cases k <;> simp [shiftOf] <;> omega

theorem byteOf_convertPixelFormatsx4 (colors : Nat) (fmt : SDL_PixelFormat)
    (h : byteAligned fmt) (k : Nat) (hk : k < 16) :
    byteOf (convertPixelFormatsx4 colors fmt) k =
      byteOf colors (4 * (k / 4) + shiftOf fmt (k % 4) / 8) := by
  unfold convertPixelFormatsx4
  simp only []
  rw [byteOf_shuffle_epi8, if_pos hk, srcShuffleMask_byte fmt k hk]
  have hs := byteAligned_shiftOf fmt h (k % 4)
  have e1 : (shiftOf fmt (k % 4) / 8 + 4 * (k / 4)) % 256 =
      4 * (k / 4) + shiftOf fmt (k % 4) / 8 := by omega
  have e2 : ¬ 128 ≤ 4 * (k / 4) + shiftOf fmt (k % 4) / 8 := by omega
  have e3 : (4 * (k / 4) + shiftOf fmt (k % 4) / 8) % 16 =
      4 * (k / 4) + shiftOf fmt (k % 4) / 8 := by omega
  rw [e1, if_neg e2, e3]

theorem shiftOf_div_lt (fmt : SDL_PixelFormat) (h : byteAligned fmt) (c : Nat) :
    shiftOf fmt c / 8 < 4 := by
  have := byteAligned_shiftOf fmt h c
  omega

theorem pixelOf_convertPixelFormatsx4 (colors : Nat) (fmt : SDL_PixelFormat)
    (h : byteAligned fmt) (i : Nat) (hi : i < 4) :
    pixelOf (convertPixelFormatsx4 colors fmt) i = convertPixelFormat (pixelOf colors i) fmt := by
  apply eq_of_bytes _ _ (pixelOf_lt _ _) (convertPixelFormat_lt _ _)
  intro c hc
  have e1 : (4 * i + c) / 4 = i := by omega
  have e2 : (4 * i + c) % 4 = c := by omega
  rw [byteOf_pixelOf _ _ _ hc, byteOf_convertPixelFormatsx4 _ _ h _ (by omega), e1, e2,
    byteOf_convertPixelFormat _ _ h _ hc, byteOf_pixelOf _ _ _ (shiftOf_div_lt fmt h c)]

/-- C8: for a byte-aligned layout, pixel `i` of `convertPixelFormatsx4 colors fmt` is
`convertPixelFormat` of pixel `i` of `colors`; its bytes, from most to least significant,
are the bytes at `Ashift/8`, `Rshift/8`, `Gshift/8`, `Bshift/8` of that same pixel (each
index is below 4, so no byte of another pixel is selected). -/
theorem convertPixelFormatsx4_eq_scalar (colors : Nat) (fmt : SDL_PixelFormat)
    (h : byteAligned fmt) (i : Nat) (hi : i < 4) :
    pixelOf (convertPixelFormatsx4 colors fmt) i = convertPixelFormat (pixelOf colors i) fmt ∧
    (fmt.Ashift / 8 < 4 ∧ fmt.Rshift / 8 < 4 ∧ fmt.Gshift / 8 < 4 ∧ fmt.Bshift / 8 < 4) ∧
    byteOf (convertPixelFormatsx4 colors fmt) (4 * i + 3) = byteOf colors (4 * i + fmt.Ashift / 8) ∧
    byteOf (convertPixelFormatsx4 colors fmt) (4 * i + 2) = byteOf colors (4 * i + fmt.Rshift / 8) ∧
    byteOf (convertPixelFormatsx4 colors fmt) (4 * i + 1) = byteOf colors (4 * i + fmt.Gshift / 8) ∧
    byteOf (convertPixelFormatsx4 colors fmt) (4 * i + 0) = byteOf colors (4 * i + fmt.Bshift / 8) := by
  have hb : ∀ c, c < 4 → byteOf (convertPixelFormatsx4 colors fmt) (4 * i + c) =
      byteOf colors (4 * i + shiftOf fmt c / 8) := by
    intro c hc
    have e1 : (4 * i + c) / 4 = i := by omega
    have e2 : (4 * i + c) % 4 = c := by omega
    rw [byteOf_convertPixelFormatsx4 _ _ h _ (by omega), e1, e2]
  refine ⟨pixelOf_convertPixelFormatsx4 colors fmt h i hi, ⟨?_, ?_, ?_, ?_⟩,
    hb 3 (by decide), hb 2 (by decide), hb 1 (by decide), hb 0 (by decide)⟩
  · exact shiftOf_div_lt fmt h 3
  · exact shiftOf_div_lt fmt h 2
  · exact shiftOf_div_lt fmt h 1
  · exact shiftOf_div_lt fmt h 0

/-- Witness of C8: the layout with alpha in the low byte (RGBA), pixel 2 of four. -/
theorem convertPixelFormatsx4_eq_scalar_witness :
    pixelOf (convertPixelFormatsx4 0x0F0E0D0C0B0A09080706050403020100
        { Rshift := 24, Gshift := 16, Bshift := 8, Ashift := 0 }) 2 =
      convertPixelFormat (pixelOf 0x0F0E0D0C0B0A09080706050403020100 2)
        { Rshift := 24, Gshift := 16, Bshift := 8, Ashift := 0 } ∧
    ((0 : Nat) / 8 < 4 ∧ 24 / 8 < 4 ∧ 16 / 8 < 4 ∧ 8 / 8 < 4) ∧
    byteOf (convertPixelFormatsx4 0x0F0E0D0C0B0A09080706050403020100
        { Rshift := 24, Gshift := 16, Bshift := 8, Ashift := 0 }) (4 * 2 + 3) =
      byteOf 0x0F0E0D0C0B0A09080706050403020100 (4 * 2 + 0 / 8) ∧
    byteOf (convertPixelFormatsx4 0x0F0E0D0C0B0A09080706050403020100
        { Rshift := 24, Gshift := 16, Bshift := 8, Ashift := 0 }) (4 * 2 + 2) =
      byteOf 0x0F0E0D0C0B0A09080706050403020100 (4 * 2 + 24 / 8) ∧
    byteOf (convertPixelFormatsx4 0x0F0E0D0C0B0A09080706050403020100
        { Rshift := 24, Gshift := 16, Bshift := 8, Ashift := 0 }) (4 * 2 + 1) =
      byteOf 0x0F0E0D0C0B0A09080706050403020100 (4 * 2 + 16 / 8) ∧
    byteOf (convertPixelFormatsx4 0x0F0E0D0C0B0A09080706050403020100
        { Rshift := 24, Gshift := 16, Bshift := 8, Ashift := 0 }) (4 * 2 + 0) =
      byteOf 0x0F0E0D0C0B0A09080706050403020100 (4 * 2 + 8 / 8) :=
  convertPixelFormatsx4_eq_scalar 0x0F0E0D0C0B0A09080706050403020100
    { Rshift := 24, Gshift := 16, Bshift := 8, Ashift := 0 } (by decide) 2 (by decide)

theorem fin4_cover : ∀ a r g b c : Fin 4, a ≠ r → a ≠ g → a ≠ b → r ≠ g → r ≠ b → g ≠ b →
    (c = b ∨ c = g ∨ c = r ∨ c = a) := by decide

theorem nat4_cover (a r g b c : Nat) (ha : a < 4) (hr : r < 4) (hg : g < 4) (hb : b < 4)
    (hc : c < 4) (h1 : a ≠ r) (h2 : a ≠ g) (h3 : a ≠ b) (h4 : r ≠ g) (h5 : r ≠ b) (h6 : g ≠ b) :
    c = b ∨ c = g ∨ c = r ∨ c = a := by
  have := fin4_cover ⟨a, ha⟩ ⟨r, hr⟩ ⟨g, hg⟩ ⟨b, hb⟩ ⟨c, hc⟩
    (by simpa using h1) (by simpa using h2) (by simpa using h3) (by simpa using h4)
    (by simpa using h5) (by simpa using h6)
  simpa using this

theorem aligned_div_ne (s t : Nat) (hs : s = 0 ∨ s = 8 ∨ s = 16 ∨ s = 24)
    (ht : t = 0 ∨ t = 8 ∨ t = 16 ∨ t = 24) (hne : s ≠ t) : s / 8 ≠ t / 8 := by
  omega

theorem aligned_div_lt (s : Nat) (hs : s = 0 ∨ s = 8 ∨ s = 16 ∨ s = 24) : s / 8 < 4 := by
  omega

theorem convertPixelFormat_injOn (fmt : SDL_PixelFormat) (h : byteAligned fmt)
    (hd : distinctShifts fmt) (x y : Nat) (hx : x < 2 ^ 32) (hy : y < 2 ^ 32)
    (hxy : convertPixelFormat x fmt = convertPixelFormat y fmt) : x = y := by
  have hb : ∀ c, c < 4 → byteOf x (shiftOf fmt c / 8) = byteOf y (shiftOf fmt c / 8) := by
    intro c hc
    rw [← byteOf_convertPixelFormat x fmt h c hc, ← byteOf_convertPixelFormat y fmt h c hc, hxy]
  have h0 := hb 0 (by decide)
  have h1 := hb 1 (by decide)
  have h2 := hb 2 (by decide)
  have h3 := hb 3 (by decide)
  obtain ⟨hA, hR, hG, hB⟩ := h
  obtain ⟨d1, d2, d3, d4, d5, d6⟩ := hd
  simp only [shiftOf] at h0 h1 h2 h3
  norm_num at h0 h1 h2 h3
  apply eq_of_bytes x y hx hy
  intro c hc
  have hcov : c = fmt.Bshift / 8 ∨ c = fmt.Gshift / 8 ∨ c = fmt.Rshift / 8 ∨ c = fmt.Ashift / 8 :=
    nat4_cover _ _ _ _ c (aligned_div_lt _ hA) (aligned_div_lt _ hR) (aligned_div_lt _ hG)
      (aligned_div_lt _ hB) hc (aligned_div_ne _ _ hA hR d1) (aligned_div_ne _ _ hA hG d2)
      (aligned_div_ne _ _ hA hB d3) (aligned_div_ne _ _ hR hG d4) (aligned_div_ne _ _ hR hB d5)
      (aligned_div_ne _ _ hG hB d6)
  rcases hcov with e | e | e | e <;> rw [e] <;> assumption

theorem convertPixelFormat_surjOn (fmt : SDL_PixelFormat) (h : byteAligned fmt)
    (hd : distinctShifts fmt) (y : Nat) (hy : y < 2 ^ 32) :
    ∃ x, x < 2 ^ 32 ∧ convertPixelFormat x fmt = y := by
  let f : Nat → Nat := fun k =>
    if k = fmt.Ashift / 8 then byteOf y 3 else if k = fmt.Rshift / 8 then byteOf y 2
    else if k = fmt.Gshift / 8 then byteOf y 1 else byteOf y 0
  have hf : ∀ k, f k < 256 := by
    intro k
    simp only [f]
    split
    · exact byteOf_lt _ _
    · split
      · exact byteOf_lt _ _
      · split
        · exact byteOf_lt _ _
        · exact byteOf_lt _ _
  have e32 : (2 : Nat) ^ 32 = 256 ^ 4 := by norm_num
  refine ⟨pack 256 f 4, ?_, ?_⟩
  · rw [e32]; exact pack_lt 256 (by decide) f 4
  · apply eq_of_bytes _ _ (convertPixelFormat_lt _ _) hy
    intro c hc
    have hs := byteAligned_shiftOf fmt h c
    have hlt : shiftOf fmt c / 8 < 4 := shiftOf_div_lt fmt h c
    rw [byteOf_convertPixelFormat _ _ h _ hc]
    show digit 256 _ _ = _
    rw [digit_pack 256 (by decide), if_pos hlt, Nat.mod_eq_of_lt (hf _)]
    obtain ⟨hA, hR, hG, hB⟩ := h
    obtain ⟨d1, d2, d3, d4, d5, d6⟩ := hd
    have nRA : ¬ fmt.Rshift / 8 = fmt.Ashift / 8 := aligned_div_ne _ _ hR hA (Ne.symm d1)
    have nGA : ¬ fmt.Gshift / 8 = fmt.Ashift / 8 := aligned_div_ne _ _ hG hA (Ne.symm d2)
    have nGR : ¬ fmt.Gshift / 8 = fmt.Rshift / 8 := aligned_div_ne _ _ hG hR (Ne.symm d4)
    have nBA : ¬ fmt.Bshift / 8 = fmt.Ashift / 8 := aligned_div_ne _ _ hB hA (Ne.symm d3)
    have nBR : ¬ fmt.Bshift / 8 = fmt.Rshift / 8 := aligned_div_ne _ _ hB hR (Ne.symm d5)
    have nBG : ¬ fmt.Bshift / 8 = fmt.Gshift / 8 := aligned_div_ne _ _ hB hG (Ne.symm d6)
    have fA : f (fmt.Ashift / 8) = byteOf y 3 := if_pos rfl
    have fR : f (fmt.Rshift / 8) = byteOf y 2 := by
      simp [f, nRA]
    have fG : f (fmt.Gshift / 8) = byteOf y 1 := by
      simp [f, nGA, nGR]
    have fB : f (fmt.Bshift / 8) = byteOf y 0 := by
      simp [f, nBA, nBR, nBG]
    have hc4 : c = 0 ∨ c = 1 ∨ c = 2 ∨ c = 3 := by omega
    rcases hc4 with e | e | e | e <;> subst e
    · exact fB
    · exact fG
    · exact fR
    · exact fA

/-- C9: for a layout with byte-aligned, pairwise distinct shifts `convertPixelFormat` is
a pure byte permutation: its bytes from most to least significant are the input bytes at
`Ashift/8`, `Rshift/8`, `Gshift/8`, `Bshift/8`, it is a bijection on 32-bit pixels, and
for the native layout it is the identity. -/
theorem convertPixelFormat_permutation (fmt : SDL_PixelFormat) (h : byteAligned fmt)
    (hd : distinctShifts fmt) :
    (∀ color,
      byteOf (convertPixelFormat color fmt) 3 = byteOf color (fmt.Ashift / 8) ∧
      byteOf (convertPixelFormat color fmt) 2 = byteOf color (fmt.Rshift / 8) ∧
      byteOf (convertPixelFormat color fmt) 1 = byteOf color (fmt.Gshift / 8) ∧
      byteOf (convertPixelFormat color fmt) 0 = byteOf color (fmt.Bshift / 8)) ∧
    Set.BijOn (fun color => convertPixelFormat color fmt) {x | x < 2 ^ 32} {x | x < 2 ^ 32} ∧
    (∀ color, color < 2 ^ 32 → convertPixelFormat color nativeARGB = color) := by
  refine ⟨fun color => ⟨?_, ?_, ?_, ?_⟩, ⟨?_, ?_, ?_⟩, ?_⟩
  · exact byteOf_convertPixelFormat color fmt h 3 (by decide)
  · exact byteOf_convertPixelFormat color fmt h 2 (by decide)
  · exact byteOf_convertPixelFormat color fmt h 1 (by decide)
  · exact byteOf_convertPixelFormat color fmt h 0 (by decide)
  · intro x _
    exact convertPixelFormat_lt x fmt
  · intro x hx y hy hxy
    exact convertPixelFormat_injOn fmt h hd x y hx hy hxy
  · intro y hy
    obtain ⟨x, hx, hxy⟩ := convertPixelFormat_surjOn fmt h hd y hy
    exact ⟨x, hx, hxy⟩
  · intro color hc
    have hn : byteAligned nativeARGB := by decide
    apply eq_of_bytes _ _ (convertPixelFormat_lt _ _) hc
    intro c hc4
    rw [byteOf_convertPixelFormat _ _ hn _ hc4]
    have hc4 : c = 0 ∨ c = 1 ∨ c = 2 ∨ c = 3 := by omega
    rcases hc4 with e | e | e | e <;> subst e <;> rfl

/-- Witness of C9: the layout with alpha in the low byte. -/
theorem convertPixelFormat_permutation_witness :
    (∀ color,
      byteOf (convertPixelFormat color layoutRGBA) 3 = byteOf color (layoutRGBA.Ashift / 8) ∧
      byteOf (convertPixelFormat color layoutRGBA) 2 = byteOf color (layoutRGBA.Rshift / 8) ∧
      byteOf (convertPixelFormat color layoutRGBA) 1 = byteOf color (layoutRGBA.Gshift / 8) ∧
      byteOf (convertPixelFormat color layoutRGBA) 0 = byteOf color (layoutRGBA.Bshift / 8)) ∧
    Set.BijOn (fun color => convertPixelFormat color layoutRGBA)
      {x | x < 2 ^ 32} {x | x < 2 ^ 32} ∧
    (∀ color, color < 2 ^ 32 → convertPixelFormat color nativeARGB = color) :=
  convertPixelFormat_permutation layoutRGBA (by decide) (by decide)

/-! ## Memory and the row loops -/

theorem mixChannel_exact (s d a : Nat) (hs : s < 256) (hd : d < 256) (ha : a < 256) :
    (mixChannel s d a : Int) = (d : Int) + ((s : Int) - d) * a / 256 := by
  rcases Nat.lt_or_ge s d with h | h
  · rw [mixChannel_of_gt s d a hd ha h]
    have hp : (d - s) * a ≤ (d - s) * 255 := Nat.mul_le_mul_left _ (by omega)
    have e : ((s : Int) - d) * a = -(((d - s) * a : Nat) : Int) := by
      push_cast [Nat.cast_sub (Nat.le_of_lt h)]
      ring
    rw [e]
    generalize (d - s) * a = p at hp
    omega
  · rw [mixChannel_of_le s d a hs ha h]
    have hp : (s - d) * a ≤ (s - d) * 255 := Nat.mul_le_mul_left _ (by omega)
    have e : ((s : Int) - d) * a = (((s - d) * a : Nat) : Int) := by
      push_cast [Nat.cast_sub h]
      ring
    rw [e]
    generalize (s - d) * a = p at hp
    omega

theorem mixChannel_lt_of_gt (s d a : Nat) (hs : s < 256) (ha : a < 256) (h : d < s) :
    mixChannel s d a < s := by
  rw [mixChannel_of_le s d a hs ha (Nat.le_of_lt h)]
  have hp : (s - d) * a ≤ (s - d) * 255 := Nat.mul_le_mul_left _ (by omega)
  generalize (s - d) * a = p at hp
  omega

theorem mixChannel_self (d a : Nat) (hd : d < 256) : mixChannel d d a = d := by
  unfold mixChannel
  have e : (d + 65536 - d) % 65536 = 0 := by omega
  rw [e]
  simp
  omega

theorem qwordOf_congr (a b i j : Nat)
    (h : ∀ r, r < 8 → byteOf a (8 * i + r) = byteOf b (8 * j + r)) :
    qwordOf a i = qwordOf b j := by
  have e : (256 : Nat) ^ 8 = 2 ^ 64 := by norm_num
  have ha := digit_pow_eq_pack 256 a 8 i
  have hb := digit_pow_eq_pack 256 b 8 j
  rw [e] at ha hb
  show digit (2 ^ 64) a i = digit (2 ^ 64) b j
  rw [ha, hb]
  apply pack_congr
  intro r hr
  have := h r hr
  unfold byteOf at this
  rw [this]

theorem byteOf_of_qwordOf_eq (a b r : Nat) (h : qwordOf a 0 = qwordOf b 0) (hr : r < 8) :
    byteOf a r = byteOf b r := by
  have ha := byteOf_qwordOf a 0 r hr
  have hb := byteOf_qwordOf b 0 r hr
  simp only [Nat.mul_zero, Nat.zero_add] at ha hb
  rw [← ha, ← hb, h]

/-- C16: each of the 8 low bytes of `MixRGBA_SSE4_1 src dst` is the exact integer
`d + floor((s - d) * a / 256)` computed without any wrap-around (floor toward minus
infinity), and that integer lies in `0..255`. -/
theorem MixRGBA_SSE4_1_exact_floor (src dst i : Nat) (hi : i < 8) :
    (byteOf (MixRGBA_SSE4_1 src dst) i : Int) =
        (byteOf dst i : Int) +
          Int.fdiv (((byteOf src i : Int) - byteOf dst i) * byteOf (pixelOf src (i / 4)) 3) 256 ∧
      0 ≤ (byteOf dst i : Int) +
          Int.fdiv (((byteOf src i : Int) - byteOf dst i) * byteOf (pixelOf src (i / 4)) 3) 256 ∧
      (byteOf dst i : Int) +
          Int.fdiv (((byteOf src i : Int) - byteOf dst i) * byteOf (pixelOf src (i / 4)) 3) 256
        ≤ 255 := by
  have hm := mixChannel_exact (byteOf src i) (byteOf dst i) (byteOf src (4 * (i / 4) + 3))
    (byteOf_lt _ _) (byteOf_lt _ _) (byteOf_lt _ _)
  have hl := mixChannel_lt (byteOf src i) (byteOf dst i) (byteOf src (4 * (i / 4) + 3))
  rw [Int.fdiv_eq_ediv _ (by decide), byteOf_pixelOf _ _ _ (by decide),
    byteOf_MixRGBA_SSE4_1 src dst i hi, ← hm]
  omega

/-- Witness of C16: the blue channel `0x10` under destination `0xF0` with alpha 200, a
negative difference. -/
theorem MixRGBA_SSE4_1_exact_floor_witness :
    (byteOf (MixRGBA_SSE4_1 0xC8000010 0xF0) 0 : Int) =
        (byteOf 0xF0 0 : Int) +
          Int.fdiv (((byteOf 0xC8000010 0 : Int) - byteOf 0xF0 0)
            * byteOf (pixelOf 0xC8000010 (0 / 4)) 3) 256 ∧
      0 ≤ (byteOf 0xF0 0 : Int) +
          Int.fdiv (((byteOf 0xC8000010 0 : Int) - byteOf 0xF0 0)
            * byteOf (pixelOf 0xC8000010 (0 / 4)) 3) 256 ∧
      (byteOf 0xF0 0 : Int) +
          Int.fdiv (((byteOf 0xC8000010 0 : Int) - byteOf 0xF0 0)
            * byteOf (pixelOf 0xC8000010 (0 / 4)) 3) 256
        ≤ 255 :=
  MixRGBA_SSE4_1_exact_floor 0xC8000010 0xF0 0 (by decide)

/-- C17: with source alpha 255 a channel computed by `MixRGBA_SSE4_1` (bytes `i < 8`)
or `MixRGBA_AVX2` (bytes `i < 16`) is `s` when `s ≤ d` and `s - 1` when `s > d`; for
every alpha, a channel with `s > d` comes out strictly below `s`. -/
theorem mixed_channel_below_source (src dst i : Nat) :
    (i < 8 →
      (byteOf (pixelOf src (i / 4)) 3 = 255 → byteOf (MixRGBA_SSE4_1 src dst) i =
        if byteOf src i ≤ byteOf dst i then byteOf src i else byteOf src i - 1) ∧
      (byteOf dst i < byteOf src i → byteOf (MixRGBA_SSE4_1 src dst) i < byteOf src i)) ∧
    (i < 16 →
      (byteOf (pixelOf src (i / 4)) 3 = 255 → byteOf (MixRGBA_AVX2 src dst) i =
        if byteOf src i ≤ byteOf dst i then byteOf src i else byteOf src i - 1) ∧
      (byteOf dst i < byteOf src i → byteOf (MixRGBA_AVX2 src dst) i < byteOf src i)) := by
  rw [byteOf_pixelOf _ _ _ (by decide)]
  constructor
  · intro hi
    rw [byteOf_MixRGBA_SSE4_1 src dst i hi]
    constructor
    · intro ha
      rw [ha, mixChannel_alpha_255 _ _ (byteOf_lt _ _) (byteOf_lt _ _)]
    · intro hlt
      exact mixChannel_lt_of_gt _ _ _ (byteOf_lt _ _) (byteOf_lt _ _) hlt
  · intro hi
    rw [byteOf_MixRGBA_AVX2 src dst i hi]
    constructor
    · intro ha
      rw [ha, mixChannel_alpha_255 _ _ (byteOf_lt _ _) (byteOf_lt _ _)]
    · intro hlt
      exact mixChannel_lt_of_gt _ _ _ (byteOf_lt _ _) (byteOf_lt _ _) hlt

/-- C18: blending a pixel onto itself returns it, whatever its alpha byte: pixel `i` of
`MixRGBA_SSE4_1 src src` is pixel `i` of `src`, and `mixPixel p p = p` for that pixel. -/
theorem blend_onto_itself (src i : Nat) (hi : i < 2) :
    pixelOf (MixRGBA_SSE4_1 src src) i = pixelOf src i ∧
      mixPixel (pixelOf src i) (pixelOf src i) = pixelOf src i := by
  constructor
  · apply pixelOf_congr
    intro c hc
    rw [byteOf_MixRGBA_SSE4_1 _ _ _ (by omega), mixChannel_self _ _ (byteOf_lt _ _)]
  · apply eq_of_bytes _ _ (mixPixel_lt _ _) (pixelOf_lt _ _)
    intro c hc
    rw [byteOf_mixPixel _ _ _ hc, mixChannel_self _ _ (byteOf_lt _ _)]

/-- Witness of C18: lane 1 of a register, a half-transparent pixel. -/
theorem blend_onto_itself_witness :
    pixelOf (MixRGBA_SSE4_1 0x80FF102000000000 0x80FF102000000000) 1 =
        pixelOf 0x80FF102000000000 1 ∧
      mixPixel (pixelOf 0x80FF102000000000 1) (pixelOf 0x80FF102000000000 1) =
        pixelOf 0x80FF102000000000 1 :=
  blend_onto_itself 0x80FF102000000000 1 (by decide)

/-- C19: the upper 64 bits of `MixRGBA_SSE4_1 src dst` are the upper 64 bits of `dst`,
whatever `src` is; the low 64 bits depend only on the low 64 bits of `src` and `dst`; so
on the zero-extended registers of the 2-pixel step each stored pixel is the blend of the
loaded pixels, and so is the stored pixel of the 1-pixel step. -/
theorem MixRGBA_SSE4_1_halves (src dst : Nat) :
    qwordOf (MixRGBA_SSE4_1 src dst) 1 = qwordOf dst 1 ∧
    (∀ src1 dst1, qwordOf src1 0 = qwordOf src 0 → qwordOf dst1 0 = qwordOf dst 0 →
      qwordOf (MixRGBA_SSE4_1 src1 dst1) 0 = qwordOf (MixRGBA_SSE4_1 src dst) 0) ∧
    (∀ i, i < 2 → pixelOf (MixRGBA_SSE4_1 (qwordOf src 0) (qwordOf dst 0)) i =
      mixPixel (pixelOf src i) (pixelOf dst i)) ∧
    pixelOf (MixRGBA_SSE4_1 (pixelOf src 0) (pixelOf dst 0)) 0 =
      mixPixel (pixelOf src 0) (pixelOf dst 0) := by
  refine ⟨?_, ?_, ?_, ?_⟩
  · apply qwordOf_congr
    intro r hr
    rw [byteOf_MixRGBA_SSE4_1_high _ _ _ (by omega), if_pos (by omega)]
  · intro src1 dst1 hs hd
    apply qwordOf_congr
    intro r hr
    simp only [Nat.mul_zero, Nat.zero_add]
    rw [byteOf_MixRGBA_SSE4_1 _ _ _ hr, byteOf_MixRGBA_SSE4_1 _ _ _ hr,
      byteOf_of_qwordOf_eq _ _ r hs hr, byteOf_of_qwordOf_eq _ _ r hd hr,
      byteOf_of_qwordOf_eq _ _ (4 * (r / 4) + 3) hs (by omega)]
  · intro i hi
    apply eq_of_bytes _ _ (pixelOf_lt _ _) (mixPixel_lt _ _)
    intro c hc
    have hq : (4 * i + c) / 4 = i := by omega
    have h1 := byteOf_qwordOf src 0 (4 * i + c) (by omega)
    have h2 := byteOf_qwordOf dst 0 (4 * i + c) (by omega)
    have h3 := byteOf_qwordOf src 0 (4 * i + 3) (by omega)
    simp only [Nat.mul_zero, Nat.zero_add] at h1 h2 h3
    rw [byteOf_pixelOf _ _ _ hc, byteOf_MixRGBA_SSE4_1 _ _ _ (by omega), hq, h1, h2, h3,
      byteOf_mixPixel _ _ _ hc, byteOf_pixelOf _ _ _ hc, byteOf_pixelOf _ _ _ hc,
      byteOf_pixelOf _ _ _ (by decide)]
  · unfold mixPixel
    rw [Nat.mod_eq_of_lt (pixelOf_lt src 0), Nat.mod_eq_of_lt (pixelOf_lt dst 0)]


/-- Witness of C17: the red channel `0xFF` over `0x10` with alpha 255 and with alpha below
255. -/
theorem mixed_channel_below_source_witness :
    byteOf (MixRGBA_SSE4_1 0xFFFF0000 0x00100000) 2 = 0xFE ∧
    byteOf (MixRGBA_AVX2 0xFFFF0000 0x00100000) 2 = 0xFE ∧
    ((2 < 8 →
      (byteOf (pixelOf 0x80FF0000 (2 / 4)) 3 = 255 →
        byteOf (MixRGBA_SSE4_1 0x80FF0000 0x00100000) 2 =
          if byteOf 0x80FF0000 2 ≤ byteOf 0x00100000 2 then byteOf 0x80FF0000 2
          else byteOf 0x80FF0000 2 - 1) ∧
      (byteOf 0x00100000 2 < byteOf 0x80FF0000 2 →
        byteOf (MixRGBA_SSE4_1 0x80FF0000 0x00100000) 2 < byteOf 0x80FF0000 2)) ∧
    (2 < 16 →
      (byteOf (pixelOf 0x80FF0000 (2 / 4)) 3 = 255 →
        byteOf (MixRGBA_AVX2 0x80FF0000 0x00100000) 2 =
          if byteOf 0x80FF0000 2 ≤ byteOf 0x00100000 2 then byteOf 0x80FF0000 2
          else byteOf 0x80FF0000 2 - 1) ∧
      (byteOf 0x00100000 2 < byteOf 0x80FF0000 2 →
        byteOf (MixRGBA_AVX2 0x80FF0000 0x00100000) 2 < byteOf 0x80FF0000 2))) :=
  ⟨by decide, by decide, mixed_channel_below_source 0x80FF0000 0x00100000 2⟩

/-- C14: with the native ARGB layout the single-pixel path (`convertPixelFormat`, then
`MixRGBA_SSE4_1`) turns source `0x80FF0000` over destination `0x00000000` into
`0x407F0000`: red 127, green and blue 0, alpha `(128 * 128) >> 8 = 64`; the 1x1 blit
stores that pixel. -/
theorem half_red_over_black :
    convertPixelFormat 0x80FF0000 nativeARGB = 0x80FF0000 ∧
    mixPixel (convertPixelFormat 0x80FF0000 nativeARGB) 0x00000000 = 0x407F0000 ∧
    byteOf 0x407F0000 2 = 127 ∧
    byteOf 0x407F0000 1 = 0 ∧
    byteOf 0x407F0000 0 = 0 ∧
    byteOf 0x407F0000 3 = (128 * 128) >>> 8 ∧
    (128 * 128) >>> 8 = 64 ∧
    loadBytes pixelSrc 0 4 = 0x80FF0000 ∧
    loadBytes pixelDst 0 4 = 0x00000000 ∧
    loadBytes (BlitNtoNPixelAlpha_SSE4_1 pixelBlit pixelSrc pixelDst (fun _ => 0)) 0 4 =
      0x407F0000 := by
  decide


/-! ## Rows and their spans -/

theorem storeBytes_outside (m : Mem) (p n v a : Nat) (h : ¬ (p ≤ a ∧ a < p + n)) :
    storeBytes m p n v a = m a := by
  unfold storeBytes
  rw [if_neg h]

theorem blend_loop_SSE4_1_frame (buffer : Mem) (dst : Nat) (dm : Mem) (m a : Nat)
    (h : ¬ (dst ≤ a ∧ a < dst + 8 * m)) :
    forLoop (fun i dmem =>
      let c_src := _mm_loadu_si64 buffer (i * 8)
      let c_dst := _mm_loadu_si64 dmem (dst + i * 8)
      let c_mix := MixRGBA_SSE4_1 c_src c_dst
      _mm_storeu_si64 dmem (dst + i * 8) c_mix) m dm a = dm a := by
  induction m with
  | zero => rfl
  | succ m ih =>
    rw [forLoop]
    show storeBytes _ (dst + m * 8) 8 _ a = dm a
    rw [storeBytes_outside _ _ _ _ _ (by omega)]
    exact ih (by omega)

theorem blend_loop_AVX2_frame (fmt : SDL_PixelFormat) (smem : Mem) (src dst : Nat) (dm : Mem)
    (n a : Nat) (h : ¬ (dst ≤ a ∧ a < dst + 16 * n)) :
    forLoop (fun i dmem =>
      let c_src := convertPixelFormatsx4 (_mm_loadu_si128 smem (src + i * 16)) fmt
      let c_dst := _mm_loadu_si128 dmem (dst + i * 16)
      let c_mix := MixRGBA_AVX2 c_src c_dst
      _mm_storeu_si128 dmem (dst + i * 16) c_mix) n dm a = dm a := by
  induction n with
  | zero => rfl
  | succ n ih =>
    rw [forLoop]
    show storeBytes _ (dst + n * 16) 16 _ a = dm a
    rw [storeBytes_outside _ _ _ _ _ (by omega)]
    exact ih (by omega)

theorem remainder_SSE4_1_frame (fmt : SDL_PixelFormat) (smem : Mem) (src dst : Nat) (dm : Mem)
    (width a : Nat) (h : ¬ (dst + 16 * (width / 4) ≤ a ∧ a < dst + 4 * width)) :
    remainder_SSE4_1 width fmt smem src dst dm a = dm a := by
  have hr : width % 4 = 0 ∨ width % 4 = 1 ∨ width % 4 = 2 ∨ width % 4 = 3 := by omega
  rcases hr with hr | hr | hr | hr
  · simp [remainder_SSE4_1, hr]
  · simp only [remainder_SSE4_1, hr, ge_iff_le, ne_eq, OfNat.ofNat_ne_zero, one_ne_zero,
      not_false_eq_true, ↓reduceIte, Nat.reduceLeDiff, Nat.not_ofNat_le_one,
      _mm_storeu_si32, _mm_loadu_si32]
    rw [storeBytes_outside _ _ _ _ _ (by omega)]
  · simp only [remainder_SSE4_1, hr, ge_iff_le, ne_eq, OfNat.ofNat_ne_zero, one_ne_zero,
      not_false_eq_true, ↓reduceIte, Nat.reduceLeDiff, Nat.not_ofNat_le_one,
      _mm_storeu_si64, _mm_loadu_si64, le_refl, Nat.sub_self, zero_ne_one]
    rw [storeBytes_outside _ _ _ _ _ (by omega)]
  · simp only [remainder_SSE4_1, hr, ge_iff_le, ne_eq, OfNat.ofNat_ne_zero, one_ne_zero,
      not_false_eq_true, ↓reduceIte, Nat.reduceLeDiff, Nat.not_ofNat_le_one,
      _mm_storeu_si64, _mm_loadu_si64, _mm_storeu_si32, _mm_loadu_si32, Nat.reduceSub]
    rw [storeBytes_outside _ _ _ _ _ (by omega), storeBytes_outside _ _ _ _ _ (by omega)]

theorem row_SSE4_1_frame (fmt : SDL_PixelFormat) (smem : Mem)
    (width srcskip dstskip : Nat) (s : BlitState) (a : Nat)
    (h : ¬ (s.dst ≤ a ∧ a < s.dst + 4 * width)) :
    (row_SSE4_1 width (width / 4) srcskip dstskip fmt smem s).dmem a = s.dmem a := by
  unfold row_SSE4_1
  simp only []
  rw [remainder_SSE4_1_frame _ _ _ _ _ _ _ (by omega),
    blend_loop_SSE4_1_frame _ _ _ _ _ (by omega)]

theorem row_AVX2_frame (fmt : SDL_PixelFormat) (smem : Mem)
    (width srcskip dstskip : Nat) (s : BlitState) (a : Nat)
    (h : ¬ (s.dst ≤ a ∧ a < s.dst + 4 * width)) :
    (row_AVX2 width (width / 4) srcskip dstskip fmt smem s).dmem a = s.dmem a := by
  unfold row_AVX2
  simp only []
  have e : remainder_AVX2 = remainder_SSE4_1 := rfl
  rw [e, remainder_SSE4_1_frame _ _ _ _ _ _ _ (by omega),
    blend_loop_AVX2_frame _ _ _ _ _ _ _ (by omega)]

theorem whileHeight_frame (row : BlitState → BlitState) (width dstskip : Nat)
    (hdst : ∀ s, (row s).dst = s.dst + 4 * width + dstskip)
    (hrow : ∀ s a, ¬ (s.dst ≤ a ∧ a < s.dst + 4 * width) → (row s).dmem a = s.dmem a)
    (height : Nat) (s : BlitState) (a : Nat)
    (h : ∀ r, r < height → ¬ (s.dst + r * (4 * width + dstskip) ≤ a ∧
      a < s.dst + r * (4 * width + dstskip) + 4 * width)) :
    (whileHeight row height s).dmem a = s.dmem a := by
  induction height generalizing s with
  | zero => rfl
  | succ n ih =>
    rw [whileHeight, ih]
    · apply hrow
      have h0 := h 0 (by omega)
      simp only [Nat.zero_mul, Nat.add_zero] at h0
      exact h0
    · intro r hr
      have h1 := h (r + 1) (by omega)
      have e : (r + 1) * (4 * width + dstskip) =
          r * (4 * width + dstskip) + (4 * width + dstskip) := Nat.succ_mul _ _
      rw [hdst]
      rw [e] at h1
      omega

theorem BlitNtoNPixelAlpha_SSE4_1_frame (info : SDL_BlitInfo) (smem dmem buffer : Mem)
    (a : Nat)
    (h : ∀ r, r < info.dst_h → ¬ (info.dst + r * (4 * info.dst_w + info.dst_skip) ≤ a ∧
      a < info.dst + r * (4 * info.dst_w + info.dst_skip) + 4 * info.dst_w)) :
    BlitNtoNPixelAlpha_SSE4_1 info smem dmem buffer a = dmem a := by
  unfold BlitNtoNPixelAlpha_SSE4_1
  exact whileHeight_frame _ info.dst_w info.dst_skip (fun _ => rfl)
    (fun s a ha => row_SSE4_1_frame _ _ _ _ _ s a ha) info.dst_h _ a h

theorem BlitNtoNPixelAlpha_AVX2_frame (info : SDL_BlitInfo) (smem dmem : Mem) (a : Nat)
    (h : ∀ r, r < info.dst_h → ¬ (info.dst + r * (4 * info.dst_w + info.dst_skip) ≤ a ∧
      a < info.dst + r * (4 * info.dst_w + info.dst_skip) + 4 * info.dst_w)) :
    BlitNtoNPixelAlpha_AVX2 info smem dmem a = dmem a := by
  unfold BlitNtoNPixelAlpha_AVX2
  exact whileHeight_frame _ info.dst_w info.dst_skip (fun _ => rfl)
    (fun s a ha => row_AVX2_frame _ _ _ _ _ s a ha) info.dst_h _ a h


/-- C13: when the width is 0 or the height is 0, `BlitNtoNPixelAlpha_SSE4_1` and
`BlitNtoNPixelAlpha_AVX2` return with the whole destination block unchanged. -/
theorem blit_of_empty_rectangle (info : SDL_BlitInfo) (smem dmem buffer : Mem)
    (h : info.dst_w = 0 ∨ info.dst_h = 0) :
    BlitNtoNPixelAlpha_SSE4_1 info smem dmem buffer = dmem ∧
      BlitNtoNPixelAlpha_AVX2 info smem dmem = dmem := by
  have hs : ∀ a r, r < info.dst_h →
      ¬ (info.dst + r * (4 * info.dst_w + info.dst_skip) ≤ a ∧
        a < info.dst + r * (4 * info.dst_w + info.dst_skip) + 4 * info.dst_w) := by
    intro a r hr
    rcases h with h | h <;> omega
  constructor
  · funext a
    exact BlitNtoNPixelAlpha_SSE4_1_frame info smem dmem buffer a (hs a)
  · funext a
    exact BlitNtoNPixelAlpha_AVX2_frame info smem dmem a (hs a)

/-- Witness of C13: 3 rows of width 0. -/
theorem blit_of_empty_rectangle_witness :
    BlitNtoNPixelAlpha_SSE4_1 emptyBlit sampleSrc sampleDst (fun _ => 0) = sampleDst ∧
      BlitNtoNPixelAlpha_AVX2 emptyBlit sampleSrc sampleDst = sampleDst :=
  blit_of_empty_rectangle emptyBlit sampleSrc sampleDst (fun _ => 0) (Or.inl rfl)


/-! ## The scratch buffer -/

theorem scratchSize_eq (chunks : Nat) (h : chunks < 2 ^ 27) : scratchSize chunks = chunks * 16 := by
  unfold scratchSize toSizeT wrapInt32
  omega


theorem Scratch.load_eq (b : Scratch) (buffer : Mem) (p n : Nat) (hsz : p + n ≤ b.size)
    (hc : ∀ k, k < n → b.cells (p + k) = some (buffer (p + k))) :
    b.load p n = some (loadBytes buffer p n) := by
  unfold Scratch.load
  have hcond : p + n ≤ b.size ∧ ∀ k, k < n → (b.cells (p + k)).isSome = true := by
    refine ⟨hsz, fun k hk => ?_⟩
    rw [hc k hk]
    rfl
  rw [if_pos hcond]
  unfold loadBytes
  congr 1
  apply pack_congr
  intro k hk
  rw [hc k hk]
  rfl

theorem convert_loop_checked (fmt : SDL_PixelFormat) (smem : Mem) (src : Nat) (b0 : Scratch)
    (buf0 : Mem) (n : Nat) (hn : 16 * n ≤ b0.size) :
    ∃ bn, forLoop (fun i (st : Option Scratch) => st.bind fun buffer =>
        let colors := _mm_loadu_si128 smem (src + i * 16)
        buffer.store (i * 16) 16 (convertPixelFormatsx4 colors fmt)) n (some b0) = some bn ∧
      bn.size = b0.size ∧
      ∀ j, j < 16 * n → bn.cells j = some (forLoop (fun i buffer =>
        let colors := _mm_loadu_si128 smem (src + i * 16)
        _mm_storeu_si128 buffer (i * 16) (convertPixelFormatsx4 colors fmt)) n buf0 j) := by
  induction n with
  | zero => exact ⟨b0, rfl, rfl, fun j hj => by omega⟩
  | succ n ih =>
    obtain ⟨bn, h1, h2, h3⟩ := ih (by omega)
    have hfit : n * 16 + 16 ≤ bn.size := by omega
    rw [forLoop, h1]
    simp only [Option.bind, Scratch.store, if_pos hfit]
    refine ⟨_, rfl, h2, ?_⟩
    intro j hj
    rw [forLoop]
    simp only [_mm_storeu_si128, storeBytes]
    by_cases hc : n * 16 ≤ j ∧ j < n * 16 + 16
    · rw [if_pos hc, if_pos hc]
    · rw [if_neg hc, if_neg hc]
      exact h3 j (by omega)

theorem blend_loop_checked (b : Scratch) (buffer : Mem) (dst : Nat) (dm : Mem) (m : Nat)
    (hsz : 8 * m ≤ b.size) (hc : ∀ j, j < 8 * m → b.cells j = some (buffer j)) :
    forLoop (fun i (st : Option Mem) => st.bind fun dmem =>
      (b.load (i * 8) 8).bind fun c_src =>
      let c_dst := _mm_loadu_si64 dmem (dst + i * 8)
      let c_mix := MixRGBA_SSE4_1 c_src c_dst
      some (_mm_storeu_si64 dmem (dst + i * 8) c_mix)) m (some dm) =
    some (forLoop (fun i dmem =>
      let c_src := _mm_loadu_si64 buffer (i * 8)
      let c_dst := _mm_loadu_si64 dmem (dst + i * 8)
      let c_mix := MixRGBA_SSE4_1 c_src c_dst
      _mm_storeu_si64 dmem (dst + i * 8) c_mix) m dm) := by
  induction m with
  | zero => rfl
  | succ m ih =>
    have hl : b.load (m * 8) 8 = some (loadBytes buffer (m * 8) 8) :=
      Scratch.load_eq b buffer (m * 8) 8 (by omega) (fun k hk => hc _ (by omega))
    rw [forLoop, ih (by omega) (fun j hj => hc j (by omega)), forLoop]
    simp only [Option.bind, hl, _mm_loadu_si64]

theorem row_SSE4_1_checked_eq (width srcskip dstskip : Nat) (fmt : SDL_PixelFormat)
    (smem : Mem) (c : CheckedState) (s : BlitState) (hsrc : c.src = s.src)
    (hdst : c.dst = s.dst) (hdm : c.dmem = s.dmem) (hsz : 16 * (width / 4) ≤ c.buffer.size) :
    ∃ c1, row_SSE4_1_checked width (width / 4) srcskip dstskip fmt smem c = some c1 ∧
      c1.src = (row_SSE4_1 width (width / 4) srcskip dstskip fmt smem s).src ∧
      c1.dst = (row_SSE4_1 width (width / 4) srcskip dstskip fmt smem s).dst ∧
      c1.dmem = (row_SSE4_1 width (width / 4) srcskip dstskip fmt smem s).dmem ∧
      c1.buffer.size = c.buffer.size := by
  obtain ⟨bn, h1, h2, h3⟩ :=
    convert_loop_checked fmt smem s.src c.buffer.forget s.buffer (width / 4) hsz
  have h4 := blend_loop_checked bn _ s.dst s.dmem (width / 4 * 2)
    (by rw [h2]; show 8 * (width / 4 * 2) ≤ c.buffer.size; omega)
    (fun j hj => h3 j (by omega))
  unfold row_SSE4_1_checked row_SSE4_1
  simp only [hsrc, hdst, hdm]
  rw [h1]
  simp only [Option.some_bind]
  rw [h4]
  simp only [Option.some_bind]
  exact ⟨_, rfl, rfl, rfl, rfl, h2⟩

theorem whileHeight_checked_eq (width srcskip dstskip : Nat) (fmt : SDL_PixelFormat)
    (smem : Mem) (height : Nat) (c : CheckedState) (s : BlitState) (hsrc : c.src = s.src)
    (hdst : c.dst = s.dst) (hdm : c.dmem = s.dmem) (hsz : 16 * (width / 4) ≤ c.buffer.size) :
    (whileHeight (fun (st : Option CheckedState) =>
        st.bind (row_SSE4_1_checked width (width / 4) srcskip dstskip fmt smem)) height
      (some c)).map (fun s => s.dmem) =
    some (whileHeight (row_SSE4_1 width (width / 4) srcskip dstskip fmt smem) height s).dmem := by
  induction height generalizing c s with
  | zero =>
    simp only [whileHeight, Option.map, hdm]
  | succ n ih =>
    obtain ⟨c1, e1, e2, e3, e4, e5⟩ :=
      row_SSE4_1_checked_eq width srcskip dstskip fmt smem c s hsrc hdst hdm hsz
    rw [whileHeight, whileHeight]
    simp only [Option.some_bind, e1]
    exact ih c1 _ e2 e3 e4 (by rw [e5]; exact hsz)

theorem convert_loop_overrun (fmt : SDL_PixelFormat) (smem : Mem) (src : Nat) (b0 : Scratch)
    (n : Nat) (hn : 0 < n) (hb : b0.size < 16) :
    forLoop (fun i (st : Option Scratch) => st.bind fun buffer =>
      let colors := _mm_loadu_si128 smem (src + i * 16)
      buffer.store (i * 16) 16 (convertPixelFormatsx4 colors fmt)) n (some b0) = none := by
  induction n with
  | zero => omega
  | succ n ih =>
    rw [forLoop]
    cases n with
    | zero =>
      have hfit : ¬ (0 * 16 + 16 ≤ b0.size) := by omega
      simp only [forLoop, Option.bind, Scratch.store, if_neg hfit]
    | succ k =>
      rw [ih (by omega)]
      rfl

theorem Scratch.load_unwritten :
    ((SDL_malloc 16).load 0 8).isNone = true ∧ ((SDL_malloc 16).store 16 16 0).isNone = true ∧
      ((SDL_malloc 16).store 0 16 0).isSome = true := by
  decide

theorem row_SSE4_1_checked_overrun (width srcskip dstskip : Nat) (fmt : SDL_PixelFormat)
    (smem : Mem) (c : CheckedState) (hn : 0 < width / 4) (hb : c.buffer.size < 16) :
    row_SSE4_1_checked width (width / 4) srcskip dstskip fmt smem c = none := by
  unfold row_SSE4_1_checked
  simp only []
  rw [convert_loop_overrun fmt smem c.src c.buffer.forget (width / 4) hn hb]
  rfl

theorem whileHeight_none (f : CheckedState → Option CheckedState) (height : Nat) :
    whileHeight (fun (st : Option CheckedState) => st.bind f) height none = none := by
  induction height with
  | zero => rfl
  | succ n ih =>
    rw [whileHeight]
    exact ih

theorem BlitNtoNPixelAlpha_SSE4_1_checked_overrun (info : SDL_BlitInfo) (smem dmem : Mem)
    (hh : 0 < info.dst_h) (hn : 0 < info.dst_w / 4) (hs : scratchSize (info.dst_w / 4) < 16) :
    BlitNtoNPixelAlpha_SSE4_1_checked info smem dmem = none := by
  unfold BlitNtoNPixelAlpha_SSE4_1_checked
  obtain ⟨n, hn1⟩ : ∃ n, info.dst_h = n + 1 := ⟨info.dst_h - 1, by omega⟩
  simp only [hn1]
  rw [whileHeight, Option.some_bind,
    row_SSE4_1_checked_overrun _ _ _ _ _ _ hn (by exact hs), whileHeight_none]
  rfl

/-- Counterexample to C15: from width `2^29` on, the `int` product `chunks * 16` overflows
and the size passed to `SDL_malloc` is no longer `chunks * 16`: at width `2^29` it is
`0xFFFFFFFF80000000` instead of `0x80000000`; at width `2^30` it is 0, so the first
16-byte store at offset 0 already lies outside the allocated bytes and the checked blit of
one such row fails. -/
theorem scratch_size_overflows :
    scratchSize (2 ^ 29 / 4) = 0xFFFFFFFF80000000 ∧
    2 ^ 29 / 4 * 16 = 0x80000000 ∧
    hugeBlit.dst_w = 2 ^ 30 ∧
    scratchSize (hugeBlit.dst_w / 4) = 0 ∧
    ((SDL_malloc (scratchSize (hugeBlit.dst_w / 4))).store 0 16 0).isNone = true ∧
    BlitNtoNPixelAlpha_SSE4_1_checked hugeBlit sampleSrc sampleDst = none :=
  ⟨by decide, by decide, rfl, by decide, by decide,
    BlitNtoNPixelAlpha_SSE4_1_checked_overrun hugeBlit sampleSrc sampleDst (by decide)
      (by decide) (by decide)⟩

/-- C15, amended: for every width below `2^29` (so that the `int` product `chunks * 16`
does not overflow) the size passed to `SDL_malloc` is `chunks * 16` with
`chunks = width / 4`, and `BlitNtoNPixelAlpha_SSE4_1` run with checked scratch accesses
does not fail: every 16-byte store at `i * 16` and every 8-byte load at `i * 8` lies
inside the allocated bytes, and every byte a load reads was stored earlier in the same
row.  The checked run returns the destination block of the blitter. -/
theorem scratch_accesses_checked (info : SDL_BlitInfo) (smem dmem buffer : Mem)
    (hw : info.dst_w < 2 ^ 29) :
    scratchSize (info.dst_w / 4) = info.dst_w / 4 * 16 ∧
    BlitNtoNPixelAlpha_SSE4_1_checked info smem dmem =
      some (BlitNtoNPixelAlpha_SSE4_1 info smem dmem buffer) := by
  have hs : scratchSize (info.dst_w / 4) = info.dst_w / 4 * 16 :=
    scratchSize_eq _ (by omega)
  refine ⟨hs, ?_⟩
  unfold BlitNtoNPixelAlpha_SSE4_1_checked BlitNtoNPixelAlpha_SSE4_1
  have hfit : 16 * (info.dst_w / 4) ≤ (SDL_malloc (scratchSize (info.dst_w / 4))).size := by
    show 16 * (info.dst_w / 4) ≤ scratchSize (info.dst_w / 4)
    omega
  exact whileHeight_checked_eq info.dst_w info.src_skip info.dst_skip info.src_fmt smem
    info.dst_h _ _ rfl rfl rfl hfit

/-- Witness of the amended C15: 3 rows of 7 pixels, one chunk per row. -/
theorem scratch_accesses_checked_witness :
    scratchSize (sampleBlit.dst_w / 4) = sampleBlit.dst_w / 4 * 16 ∧
    BlitNtoNPixelAlpha_SSE4_1_checked sampleBlit sampleSrc sampleDst =
      some (BlitNtoNPixelAlpha_SSE4_1 sampleBlit sampleSrc sampleDst (fun _ => 0)) :=
  scratch_accesses_checked sampleBlit sampleSrc sampleDst (fun _ => 0) (by decide)

end SDLBlit
